import Mathlib

/-!
Verification of the meeting-intelligence pipeline of the `ai-agent-app`
repository, as implemented by the enhanced business-intelligence worker in
`src/app/api/chat/route.ts`.

The TypeScript source is shallowly embedded.  External effects are made
explicit:

* the D1 database and the R2 blob bucket become a `DBState` record that is
  threaded through the handlers;
* `Date.now()` and `new Date().toISOString()` become reads of an `Oracle`
  clock (`time : Nat → Nat` indexed by a read counter kept in the state),
  and `toLocaleDateString` / `toISOString` become oracle string renderings;
* the Workers AI binding (`ai.run`) is an opaque call whose outcome (an
  exception, or raw text whose `JSON.parse` result is given directly) is an
  input of the embedding;
* `Promise.allSettled` over the per-transcript pipelines is linearised into
  a left-to-right fold that records each pipeline's own outcome.

JavaScript integer values that the worker renders into strings (lengths,
`Date.now()` readings, minute counts) are modelled as `Nat`, rendered in
base 10 by `natDecimal`; SQL `LIKE` is implemented faithfully including its
`%` and `_` wildcards.  JSON (de)serialisation of the structured fields the
worker itself wrote (`JSON.parse ∘ JSON.stringify`) is modelled as the
identity, so serialized columns hold their structured values.
-/

namespace AiAgentApp

/-! ### Base-10 rendering of natural numbers

`natDecimal n` is the decimal digit string of `n`, standing for the
JavaScript rendering of a nonnegative integer in template interpolation
(`` `insight_${transcript.id}_${Date.now()}` `` and the markdown counters). -/

def digitChar (d : Nat) : Char :=
  match d with
  | 0 => '0' | 1 => '1' | 2 => '2' | 3 => '3' | 4 => '4'
  | 5 => '5' | 6 => '6' | 7 => '7' | 8 => '8' | _ => '9'

def natDecAux : Nat → Nat → List Char
  | 0, _ => []
  | fuel + 1, n =>
    if n < 10 then [digitChar n] else digitChar (n % 10) :: natDecAux fuel (n / 10)

def natDecimal (n : Nat) : String := ⟨(natDecAux (n + 1) n).reverse⟩

/-- Decode a little-endian digit list; inverse of `natDecAux`. -/
def decodeDigitsRev : List Char → Nat
  | [] => 0
  | c :: t => (c.toNat - 48) + 10 * decodeDigitsRev t

theorem digitChar_toNat {d : Nat} (h : d < 10) : (digitChar d).toNat = 48 + d := by
  interval_cases d <;> rfl

theorem digitChar_ne_underscore (d : Nat) : digitChar d ≠ '_' := by
  unfold digitChar
  split <;> decide

theorem decode_natDecAux : ∀ fuel n, n < fuel → decodeDigitsRev (natDecAux fuel n) = n := by
  intro fuel
  induction fuel with
  | zero => intro n h; omega
  | succ fuel ih =>
    intro n h
    unfold natDecAux
    by_cases h10 : n < 10
    · simp only [h10, if_true, decodeDigitsRev, digitChar_toNat h10]
      omega
    · have hn : 0 < n := by omega
      have hdiv : n / 10 < fuel := by
        have := Nat.div_lt_self hn (by omega : 1 < 10)
        omega
      simp only [h10, if_false, decodeDigitsRev, ih (n / 10) hdiv,
        digitChar_toNat (Nat.mod_lt n (by omega) : n % 10 < 10)]
      omega

theorem natDecAux_ne_underscore : ∀ fuel n, '_' ∉ natDecAux fuel n := by
  intro fuel
  induction fuel with
  | zero => intro n; simp [natDecAux]
  | succ fuel ih =>
    intro n
    unfold natDecAux
    by_cases h10 : n < 10
    · simp only [h10, if_true, List.mem_singleton]
      exact fun h => digitChar_ne_underscore n h.symm
    · simp only [h10, if_false, List.mem_cons]
      rintro (h | h)
      · exact digitChar_ne_underscore (n % 10) h.symm
      · exact ih (n / 10) h

theorem natDecimal_inj {a b : Nat} (h : natDecimal a = natDecimal b) : a = b := by
  have hdata : (natDecAux (a + 1) a).reverse = (natDecAux (b + 1) b).reverse :=
    congrArg String.data h
  have haux : natDecAux (a + 1) a = natDecAux (b + 1) b := by
    have := congrArg List.reverse hdata
    simpa using this
  have := congrArg decodeDigitsRev haux
  rwa [decode_natDecAux _ _ (Nat.lt_succ_self a),
    decode_natDecAux _ _ (Nat.lt_succ_self b)] at this

/-! ### Lower/upper casing, joining (String.prototype helpers) -/

def lowerData (s : String) : List Char := s.data.map Char.toLower

def lowerStr (s : String) : String := ⟨s.data.map Char.toLower⟩

def upperStr (s : String) : String := ⟨s.data.map Char.toUpper⟩

/-- `String.prototype.padStart(2, '0')`. -/
def padStart2 (s : String) : String :=
  if s.length ≥ 2 then s else ⟨List.replicate (2 - s.length) '0'⟩ ++ s

/-- `Math.round(n / 60)` for a nonnegative integer `n`:
round-half-up of the exact quotient. -/
def mathRoundDiv60 (n : Nat) : Nat := (2 * n + 60) / 120

/-! ### SQL LIKE

SQLite `LIKE` semantics over character lists: `%` matches any sequence,
`_` matches exactly one character, any other pattern character matches
itself.  The worker always wraps both sides in `LOWER(...)`, so matching is
performed on lowercased data. -/

def likeMatch : List Char → List Char → Bool
  | [], s => s.isEmpty
  | c :: ps, s =>
    if c = '%' then s.tails.any fun t => likeMatch ps t
    else
      match s with
      | [] => false
      | d :: s' => (c == '_' || c == d) && likeMatch ps s'

/-- The pattern `LOWER('%' || s || '%')`. -/
def likePat (s : String) : List Char := '%' :: (s.data.map Char.toLower ++ ['%'])

theorem likeMatch_nil (s : List Char) : likeMatch [] s = s.isEmpty := by
  unfold likeMatch; rfl

theorem likeMatch_pct (ps s : List Char) :
    likeMatch ('%' :: ps) s = s.tails.any fun t => likeMatch ps t := rfl

/-- A pattern consisting of literal text `m` followed by `%` matches
`m ++ b` for any `b` (each pattern character matches its own literal copy,
wildcards included). -/
theorem likeMatch_self_pct : ∀ m b : List Char, likeMatch (m ++ ['%']) (m ++ b) = true := by
  intro m
  induction m with
  | nil =>
    intro b
    simp only [List.nil_append]
    rw [show ([('%' : Char)] : List Char) = '%' :: [] from rfl, likeMatch_pct]
    rw [List.any_eq_true]
    refine ⟨[], ?_, ?_⟩
    · exact (List.mem_tails _ _).mpr List.nil_suffix
    · simp [likeMatch_nil]
  | cons c m ih =>
    intro b
    by_cases hc : c = '%'
    · subst hc
      rw [List.cons_append, likeMatch_pct, List.any_eq_true]
      exact ⟨m ++ b, (List.mem_tails _ _).mpr (List.suffix_cons '%' (m ++ b)), ih b⟩
    · rw [List.cons_append, List.cons_append]
      unfold likeMatch
      simp only [hc, if_false]
      rw [ih b]
      simp

/-- Case-insensitive substring containment implies a `LIKE '%' || s || '%'`
match: if the lowercased text decomposes as `a ++ m ++ b` then the pattern
`'%' :: m ++ ['%']` matches it. -/
theorem likeMatch_of_contains (a m b : List Char) :
    likeMatch ('%' :: (m ++ ['%'])) (a ++ (m ++ b)) = true := by
  rw [likeMatch_pct, List.any_eq_true]
  exact ⟨m ++ b, (List.mem_tails _ _).mpr (List.suffix_append a (m ++ b)), likeMatch_self_pct m b⟩

/-! ### Substring containment (for relating `LIKE` to plain containment) -/

def leadsWith : List Char → List Char → Bool
  | [], _ => true
  | _ :: _, [] => false
  | c :: cs, d :: ds => c == d && leadsWith cs ds

/-- `hasSub hay needle = true` iff `needle` occurs contiguously in `hay`. -/
def hasSub (hay needle : List Char) : Bool :=
  hay.tails.any fun t => leadsWith needle t

theorem leadsWith_iff (needle : List Char) :
    ∀ t, leadsWith needle t = true ↔ ∃ b, t = needle ++ b := by
  induction needle with
  | nil => intro t; simp [leadsWith]
  | cons c cs ih =>
    intro t
    cases t with
    | nil => simp [leadsWith]
    | cons d ds =>
      simp only [leadsWith, Bool.and_eq_true, beq_iff_eq, ih ds]
      constructor
      · rintro ⟨rfl, b, rfl⟩
        exact ⟨b, rfl⟩
      · rintro ⟨b, hb⟩
        cases hb
        exact ⟨rfl, b, rfl⟩

theorem hasSub_iff (hay needle : List Char) :
    hasSub hay needle = true ↔ ∃ a b, hay = a ++ needle ++ b := by
  unfold hasSub
  rw [List.any_eq_true]
  constructor
  · rintro ⟨t, ht, hl⟩
    obtain ⟨b, rfl⟩ := (leadsWith_iff needle t).mp hl
    obtain ⟨a, rfl⟩ := (List.mem_tails _ _).mp ht
    exact ⟨a, b, by simp⟩
  · rintro ⟨a, b, rfl⟩
    refine ⟨needle ++ b, (List.mem_tails _ _).mpr ?_, (leadsWith_iff needle _).mpr ⟨b, rfl⟩⟩
    rw [List.append_assoc]
    exact List.suffix_append a (needle ++ b)

/-! ### Generated insight ids

`` `insight_${transcript.id}_${Date.now()}` `` from the `project_insights`
insert in `handleEnhancedMeetingSync`. -/

def insightId (tid : String) (ts : Nat) : String :=
  "insight_" ++ tid ++ "_" ++ natDecimal ts

/-- If two lists each consisting of underscore-free text after a leading
underscore-terminated part coincide, the underscore-free leading parts
coincide (read on reversed strings: the digit run after the last
underscore is uniquely determined). -/
theorem underscore_split : ∀ d₁ d₂ r₁ r₂ : List Char, '_' ∉ d₁ → '_' ∉ d₂ →
    d₁ ++ '_' :: r₁ = d₂ ++ '_' :: r₂ → d₁ = d₂ := by
  intro d₁
  induction d₁ with
  | nil =>
    intro d₂ r₁ r₂ _ h₂ h
    cases d₂ with
    | nil => rfl
    | cons c t =>
      simp only [List.nil_append, List.cons_append, List.cons.injEq] at h
      exact absurd (h.1 ▸ List.mem_cons_self c t) h₂
  | cons c t ih =>
    intro d₂ r₁ r₂ h₁ h₂ h
    cases d₂ with
    | nil =>
      simp only [List.cons_append, List.nil_append, List.cons.injEq] at h
      exact absurd (h.1 ▸ List.mem_cons_self c t) h₁
    | cons c' t' =>
      simp only [List.cons_append, List.cons.injEq] at h
      have := ih t' r₁ r₂ (fun hm => h₁ (List.mem_cons_of_mem c hm))
        (fun hm => h₂ (List.mem_cons_of_mem c' hm)) h.2
      rw [h.1, this]

theorem data_append (a b : String) : (a ++ b).data = a.data ++ b.data := rfl

theorem string_eq_of_data {s t : String} (h : s.data = t.data) : s = t := by
  cases s
  cases t
  cases h
  rfl

/-- The numeric (timestamp) component of a generated insight id is
recoverable: equal ids force equal timestamps. -/
theorem insightId_ts_inj {t₁ t₂ : String} {a b : Nat}
    (h : insightId t₁ a = insightId t₂ b) : a = b := by
  have hdata : ("insight_" ++ t₁ ++ "_").data ++ (natDecimal a).data =
      ("insight_" ++ t₂ ++ "_").data ++ (natDecimal b).data := by
    have := congrArg String.data h
    simpa only [insightId, data_append, List.append_assoc] using this
  have hrev : (natDecimal a).data.reverse ++ ("insight_" ++ t₁ ++ "_").data.reverse =
      (natDecimal b).data.reverse ++ ("insight_" ++ t₂ ++ "_").data.reverse := by
    have := congrArg List.reverse hdata
    simpa [List.reverse_append] using this
  have hlast : ∀ s : String, (s ++ "_").data.reverse = '_' :: s.data.reverse := by
    intro s
    simp [data_append]
  rw [hlast ("insight_" ++ t₁), hlast ("insight_" ++ t₂)] at hrev
  have hno : ∀ n : Nat, '_' ∉ (natDecimal n).data.reverse := by
    intro n hm
    have hmem : '_' ∈ natDecAux (n + 1) n := by
      simpa [natDecimal] using hm
    exact natDecAux_ne_underscore (n + 1) n hmem
  have hd := underscore_split _ _ _ _ (hno a) (hno b) hrev
  apply natDecimal_inj
  have hd' : (natDecimal a).data = (natDecimal b).data := by
    have := congrArg List.reverse hd
    simpa using this
  exact string_eq_of_data hd'

/-! ### Data model: transcripts and extracted insights -/

structure Attendee where
  displayName : String
  deriving DecidableEq

structure Sentence where
  text : String
  speaker_name : String
  start_time : Nat
  deriving DecidableEq

structure Transcript where
  id : String
  title : String
  date : Nat
  duration : Nat
  meeting_attendees : List Attendee
  sentences : List Sentence
  deriving DecidableEq

structure RiskFlag where
  title : String
  severity : String
  deriving DecidableEq

structure SubInsight where
  type : String
  title : String
  description : String
  requiresAction : Bool
  confidence : Rat
  deriving DecidableEq

structure Insight where
  summary : String
  meetingType : String
  actionItems : List String
  decisions : List String
  risks : List RiskFlag
  insights : List SubInsight
  followUpRequired : Bool
  deriving DecidableEq

/-! ### Project matching (`associateTranscriptWithProject`)

The worker's query is

  SELECT id, name FROM projects
  WHERE LOWER(?) LIKE LOWER('%' || name || '%')
     OR LOWER(?) LIKE LOWER('%' || autorag_project_tag || '%')
  ORDER BY updated_at DESC
  LIMIT 1

with the transcript title bound to both placeholders.  A `NULL`
`autorag_project_tag` makes its `LIKE` arm `NULL` (falsy). -/

structure Project where
  id : String
  name : String
  autorag_project_tag : Option String
  updated_at : Nat
  deriving DecidableEq

def titleMatches (title : String) (p : Project) : Bool :=
  likeMatch (likePat p.name) (lowerData title) ||
    (match p.autorag_project_tag with
     | some tag => likeMatch (likePat tag) (lowerData title)
     | none => false)

/-- `ORDER BY updated_at DESC LIMIT 1`: some row whose `updated_at` is
maximal among the given rows. -/
def bestByUpdatedAt : List Project → Option Project
  | [] => none
  | p :: ps =>
    match bestByUpdatedAt ps with
    | none => some p
    | some q => if q.updated_at > p.updated_at then some q else some p

def associateTranscriptWithProject (projects : List Project) (title : String) :
    Option String :=
  (bestByUpdatedAt (projects.filter fun p => titleMatches title p)).map (·.id)

theorem bestByUpdatedAt_eq_none : ∀ l : List Project, bestByUpdatedAt l = none ↔ l = [] := by
  intro l
  cases l with
  | nil => simp [bestByUpdatedAt]
  | cons p ps =>
    simp only [bestByUpdatedAt]
    constructor
    · intro h
      exfalso
      cases hb : bestByUpdatedAt ps with
      | none => rw [hb] at h; exact Option.noConfusion h
      | some m =>
        rw [hb] at h
        dsimp only at h
        split at h <;> exact Option.noConfusion h
    · intro h
      cases h

theorem bestByUpdatedAt_spec : ∀ l : List Project, ∀ q, bestByUpdatedAt l = some q →
    q ∈ l ∧ ∀ r ∈ l, r.updated_at ≤ q.updated_at := by
  intro l
  induction l with
  | nil => intro q h; simp [bestByUpdatedAt] at h
  | cons p ps ih =>
    intro q h
    rw [bestByUpdatedAt] at h
    cases hb : bestByUpdatedAt ps with
    | none =>
      rw [hb] at h
      dsimp only at h
      cases h
      have hps : ps = [] := (bestByUpdatedAt_eq_none ps).mp hb
      subst hps
      refine ⟨List.mem_singleton.mpr rfl, ?_⟩
      intro r hr
      rw [List.mem_singleton] at hr
      rw [hr]
    | some m =>
      rw [hb] at h
      dsimp only at h
      obtain ⟨hmem, hmax⟩ := ih m hb
      split at h
      · cases h
        refine ⟨List.mem_cons_of_mem p hmem, ?_⟩
        intro r hr
        rcases List.mem_cons.mp hr with rfl | hr
        · omega
        · exact hmax r hr
      · cases h
        refine ⟨List.mem_cons_self _ _, ?_⟩
        intro r hr
        rcases List.mem_cons.mp hr with rfl | hr
        · exact le_refl _
        · have := hmax r hr
          omega

/-! ### JSON values and `generateBusinessInsights`

`ai.run` either throws (`AIResult.fail`) or yields raw text whose
`JSON.parse` result is given directly: `none` when the text is not valid
JSON (so `JSON.parse` throws and the `catch` branch runs), `some v` when it
parses to the JSON value `v`.  The worker returns `JSON.parse`'s result
unchanged in the success case and the hand-written fallback object in the
`catch` branch. -/

inductive JValue where
  | null
  | bool (b : Bool)
  | num (q : Rat)
  | str (s : String)
  | arr (elems : List JValue)
  | obj (fields : List (String × JValue))

inductive AIResult where
  | fail
  | ok (parsed : Option JValue)

/-- The object literal returned by the `catch` branch of
`generateBusinessInsights`. -/
def fallbackInsightJson (t : Transcript) : JValue :=
  .obj [("summary", .str ("Meeting: " ++ t.title)),
        ("meetingType", .str "project"),
        ("actionItems", .arr []),
        ("decisions", .arr []),
        ("risks", .arr []),
        ("insights", .arr []),
        ("followUpRequired", .bool false)]

def generateBusinessInsights (t : Transcript) (r : AIResult) : JValue :=
  match r with
  | .fail => fallbackInsightJson t
  | .ok none => fallbackInsightJson t
  | .ok (some v) => v

def jlookup (fields : List (String × JValue)) (k : String) : Option JValue :=
  (fields.find? fun f => f.1 == k).map (·.2)

def isStrVal : Option JValue → Bool
  | some (.str _) => true
  | _ => false

def isBoolVal : Option JValue → Bool
  | some (.bool _) => true
  | _ => false

def isStrArrVal : Option JValue → Bool
  | some (.arr xs) => xs.all fun v => match v with | .str _ => true | _ => false
  | _ => false

def isArrVal : Option JValue → Bool
  | some (.arr _) => true
  | _ => false

/-- Structural validity of an extracted insight: an object carrying a
string `summary`, a string `meetingType`, string-array `actionItems` and
`decisions`, array `risks` and `insights`, and a boolean
`followUpRequired`. -/
def isValidInsightJson (v : JValue) : Bool :=
  match v with
  | .obj fs =>
    isStrVal (jlookup fs "summary") && isStrVal (jlookup fs "meetingType") &&
    isStrArrVal (jlookup fs "actionItems") && isStrArrVal (jlookup fs "decisions") &&
    isArrVal (jlookup fs "risks") && isArrVal (jlookup fs "insights") &&
    isBoolVal (jlookup fs "followUpRequired")
  | _ => false

/-! ### Markdown rendering (`createEnhancedMarkdown`)

The template literal in the source carries the surrounding two-space
indentation inside the string; it is reproduced byte for byte.  The two
ambient platform renderings — `new Date(transcript.date).toLocaleDateString()`
and `new Date().toISOString()` — enter as the `localeDate` function and the
`generatedAt` string. -/

/-- One transcript line:
`` `${timestamp} **${sentence.speaker_name}:** ${sentence.text}` `` where
the `[minutes:seconds]` timestamp is rendered only for a truthy (nonzero)
`start_time`. -/
def sentenceLine (s : Sentence) : String :=
  (if s.start_time ≠ 0 then
      "[" ++ natDecimal (s.start_time / 60) ++ ":" ++
        padStart2 (natDecimal (s.start_time % 60)) ++ "]"
    else "") ++
    " **" ++ s.speaker_name ++ ":** " ++ s.text

/-- `transcript.sentences?.map(...).join('\n\n') || 'No transcript available.'`
(an empty join is falsy, so the fallback text is used). -/
def transcriptSection : List Sentence → String
  | [] => "No transcript available."
  | s :: ss => String.intercalate "\n\n" ((s :: ss).map sentenceLine)

/-- `xs.map((x, i) => `${i + 1}. ${x}`).join('\n')`. -/
def numberedLines (xs : List String) : String :=
  String.intercalate "\n" (xs.enum.map fun p => natDecimal (p.1 + 1) ++ ". " ++ p.2)

/-- `risks.map(r => `- **${r.severity.toUpperCase()}:** ${r.title}`).join('\n')`. -/
def riskLines (rs : List RiskFlag) : String :=
  String.intercalate "\n" (rs.map fun r => "- **" ++ upperStr r.severity ++ ":** " ++ r.title)

/-- Everything of the markdown template before the interpolated
`new Date().toISOString()` of the `**Generated:**` line. -/
def mdBody (t : Transcript) (ins : Insight) (projectId : Option String)
    (localeDate : Nat → String) : String :=
  "---\n  title: " ++ t.title ++
  "\n  project_id: " ++ projectId.getD "unknown" ++
  "\n  meeting_type: " ++ ins.meetingType ++
  "\n  date: " ++ natDecimal t.date ++
  "\n  duration: " ++ natDecimal (mathRoundDiv60 t.duration) ++ " minutes" ++
  "\n  insights_generated: " ++ natDecimal ins.insights.length ++
  "\n  action_items: " ++ natDecimal ins.actionItems.length ++
  "\n  risks_identified: " ++ natDecimal ins.risks.length ++
  "\n  ---\n  \n  # " ++ t.title ++
  "\n  \n  **Project:** " ++ projectId.getD "Not Associated" ++
  "\n  **Date:** " ++ localeDate t.date ++
  "\n  **Type:** " ++ ins.meetingType ++
  "\n  **AI Summary:** " ++ ins.summary ++
  "\n  \n  ## Business Intelligence\n  \n  ### Action Items\n  " ++
  numberedLines ins.actionItems ++
  "\n  \n  ### Key Decisions\n  " ++ numberedLines ins.decisions ++
  "\n  \n  ### Risk Flags\n  " ++ riskLines ins.risks ++
  "\n  \n  ## Meeting Transcript\n  \n  " ++ transcriptSection t.sentences ++
  "\n  \n  ---\n  **Generated:** "

/-- The constant tail of the template after the generation timestamp. -/
def mdTail : String :=
  "\n  **Source:** Fireflies.ai Enhanced with Business Intelligence\n  "

def createEnhancedMarkdown (t : Transcript) (ins : Insight) (projectId : Option String)
    (localeDate : Nat → String) (generatedAt : String) : String :=
  mdBody t ins projectId localeDate ++ generatedAt ++ mdTail

/-! ### Database rows and worker state -/

structure MeetingRow where
  id : String
  title : String
  date : Nat
  duration : Nat
  participants : List String
  fireflies_id : String
  summary : String
  project_id : Option String
  meeting_type : String
  action_items : List String
  key_decisions : List String
  ai_risk_flags : List RiskFlag
  follow_up_required : Bool
  created_at : String
  deriving DecidableEq

structure InsightRow where
  id : String
  project_id : String
  insight_type : String
  title : String
  description : String
  source_meeting_id : String
  requires_action : Bool
  confidence_score : Rat
  extracted_at : Nat
  deriving DecidableEq

structure TaskRow where
  project_id : String
  status : String
  estimated_hours : Nat
  actual_hours : Nat
  deriving DecidableEq

/-- One row of the `project_dashboard` view (the fields the worker reads). -/
structure DashProjectRow where
  id : String
  name : String
  status : String
  client_name : String
  estimated_value : Nat
  profit_margin_percent : Nat
  timeline_status : String
  deriving DecidableEq

/-- The durable state visible to the worker: the D1 tables, the
`project_dashboard` view, the R2 bucket contents, and the counter of clock
reads performed so far. -/
structure DBState where
  projects : List Project
  dash_projects : List DashProjectRow
  meetings : List MeetingRow
  project_insights : List InsightRow
  tasks : List TaskRow
  blobs : List (String × String)
  tick : Nat
  deriving DecidableEq

/-- Ambient platform functions: the wall clock (indexed by read counter)
and the two date renderings used by the worker. -/
structure Oracle where
  time : Nat → Nat
  iso : Nat → String
  localeDate : Nat → String

/-- Per-transcript external outcomes for one sync run: the extracted
insight (fallback or parsed model output) and which storage/publish calls
throw.  `insightInsertThrowsAt = some k` makes the k-th
`project_insights` insert of this transcript reject. -/
structure TEnv where
  insight : Insight
  meetingInsertThrows : Bool
  insightInsertThrowsAt : Option Nat
  r2PutThrows : Bool
  deriving DecidableEq

/-- `INSERT OR REPLACE INTO meetings`: replace the row with the same id,
insert otherwise. -/
def upsertMeeting (rows : List MeetingRow) (row : MeetingRow) : List MeetingRow :=
  if rows.any fun r => r.id == row.id then
    rows.map fun r => if r.id == row.id then row else r
  else rows ++ [row]

/-- `bucket.put(key, content, ...)`: full overwrite at the key. -/
def putBlob (blobs : List (String × String)) (key content : String) :
    List (String × String) :=
  if blobs.any fun b => b.1 == key then
    blobs.map fun b => if b.1 == key then (key, content) else b
  else blobs ++ [(key, content)]

/-- The `meetings` row written by `handleEnhancedMeetingSync` for one
transcript. -/
def mkMeetingRow (t : Transcript) (bi : Insight) (pid : Option String)
    (createdAt : String) : MeetingRow :=
  { id := t.id
    title := t.title
    date := t.date
    duration := mathRoundDiv60 t.duration
    participants := t.meeting_attendees.map (·.displayName)
    fireflies_id := t.id
    summary := bi.summary
    project_id := pid
    meeting_type := bi.meetingType
    action_items := bi.actionItems
    key_decisions := bi.decisions
    ai_risk_flags := bi.risks
    follow_up_required := bi.followUpRequired
    created_at := createdAt }

/-- The `project_insights` row inserted for one extracted sub-insight
(`extracted_at` is the database-defaulted insertion timestamp, taken from
the same clock). -/
def mkInsightRow (tid pid : String) (ins : SubInsight) (ts : Nat) : InsightRow :=
  { id := insightId tid ts
    project_id := pid
    insight_type := ins.type
    title := ins.title
    description := ins.description
    source_meeting_id := tid
    requires_action := ins.requiresAction
    confidence_score := ins.confidence
    extracted_at := ts }

/-! ### One transcript's pipeline and the sync batch

`handleEnhancedMeetingSync` maps every fetched transcript through
associate → extract → record → publish under `Promise.allSettled`; the
fold below linearises those pipelines, collecting each one's settled
outcome.  Every `Date.now()` / `new Date()` evaluation consumes one clock
read (the argument tuples of `.bind(...)` are evaluated before `.run()`
can reject, so the read happens even when the statement then throws). -/

/-- The `for (const insight of businessInsights.insights)` insert loop.
Stops with an error at the first rejecting insert; rows inserted before it
stay committed. -/
def insertLoop (o : Oracle) (tid pid : String) :
    List SubInsight → Option Nat → DBState → DBState × Except Unit Unit
  | [], _, st => (st, .ok ())
  | ins :: rest, throwsAt, st =>
    let ts := o.time st.tick
    let st' := { st with tick := st.tick + 1 }
    if throwsAt = some 0 then (st', .error ())
    else
      insertLoop o tid pid rest (throwsAt.map fun k => k - 1)
        { st' with project_insights := st'.project_insights ++ [mkInsightRow tid pid ins ts] }

/-- The tail of one transcript's pipeline after the insight inserts: when
they settled successfully, render the markdown document and publish it to
R2 (which may itself reject); a loop rejection short-circuits here. -/
def publishStage (o : Oracle) (t : Transcript) (r2Throws : Bool) (bi : Insight)
    (projectId : Option String) : DBState × Except Unit Unit → DBState × Except Unit String
  | (st₃, .error _) => (st₃, .error ())
  | (st₃, .ok _) =>
    let generatedAt := o.iso (o.time st₃.tick)
    let st₄ := { st₃ with tick := st₃.tick + 1 }
    if r2Throws then (st₄, .error ())
    else
      let md := createEnhancedMarkdown t bi projectId o.localeDate generatedAt
      ({ st₄ with blobs := putBlob st₄.blobs ("meetings/meeting-" ++ t.id ++ ".md") md },
       .ok t.id)

/-- One transcript's pipeline: associate project, extract insight (already
settled into `e.insight`, see `generateBusinessInsights`), upsert the
meeting row, insert project insights when a project was associated,
render and publish the markdown document.  Returns the transcript id on
success, an error as soon as one storage/publish step rejects. -/
def runPipeline (o : Oracle) (t : Transcript) (e : TEnv) (st : DBState) :
    DBState × Except Unit String :=
  let projectId := associateTranscriptWithProject st.projects t.title
  let bi := e.insight
  let createdAt := o.iso (o.time st.tick)
  let st₁ := { st with tick := st.tick + 1 }
  if e.meetingInsertThrows then (st₁, .error ())
  else
    let st₂ := { st₁ with meetings := upsertMeeting st₁.meetings (mkMeetingRow t bi projectId createdAt) }
    let afterInsights :=
      match projectId with
      | some pid =>
        if bi.insights.length > 0 then insertLoop o t.id pid bi.insights e.insightInsertThrowsAt st₂
        else (st₂, .ok ())
      | none => (st₂, .ok ())
    publishStage o t e.r2PutThrows bi projectId afterInsights

/-- The settled outcomes of the whole batch, in order. -/
def runBatch (o : Oracle) : List (Transcript × TEnv) → DBState →
    DBState × List (Except Unit String)
  | [], st => (st, [])
  | (t, e) :: rest, st =>
    let first := runPipeline o t e st
    let others := runBatch o rest first.1
    (others.1, first.2 :: others.2)

/-- Whether the k-th iteration of the insert loop over `n` insights
rejects. -/
def loopFails (throwsAt : Option Nat) (n : Nat) : Bool :=
  match throwsAt with
  | some k => decide (k < n)
  | none => false

/-- The settled outcome of one transcript's pipeline, determined by the
transcript's own data and failure environment alone (plus the read-only
`projects` table). -/
def pipelineOutcome (projects : List Project) (t : Transcript) (e : TEnv) :
    Except Unit String :=
  if e.meetingInsertThrows then .error ()
  else if (match associateTranscriptWithProject projects t.title with
           | some _ => loopFails e.insightInsertThrowsAt e.insight.insights.length
           | none => false) then .error ()
  else if e.r2PutThrows then .error ()
  else .ok t.id

def exceptOk : Except Unit String → Bool
  | .ok _ => true
  | .error _ => false

/-! ### The sync endpoint (`handleEnhancedMeetingSync`)

The Fireflies call either throws (`.error e`, also covering a failing
`response.json()`), returns a body without `data.transcripts` (`.ok none`,
which makes the worker `throw new Error('No transcripts found')`), or
returns a transcript list.  Every throw lands in the one `catch` block,
which answers HTTP 200 with an error payload and `count: 0`.
`triggerAutoRAGSync` swallows its own failures and is omitted from the
state. -/

inductive SyncBody where
  | success (count : Nat) (message : String) (insightsGenerated : Nat)
  | failure (error : String) (details : String) (count : Nat)
  deriving DecidableEq

structure SyncResponse where
  status : Nat
  body : SyncBody
  deriving DecidableEq

def handleEnhancedMeetingSync (o : Oracle)
    (fireflies : Except String (Option (List (Transcript × TEnv))))
    (st : DBState) : SyncResponse × DBState :=
  match fireflies with
  | .error e => (⟨200, .failure "Failed to sync meetings" e 0⟩, st)
  | .ok none =>
    (⟨200, .failure "Failed to sync meetings" "No transcripts found" 0⟩, st)
  | .ok (some batch) =>
    let res := runBatch o batch st
    let successfulUploads := res.2.countP exceptOk
    (⟨200,
      .success successfulUploads
        ("Successfully synced " ++ natDecimal successfulUploads ++
          " meetings with business intelligence")
        (batch.length * 2)⟩,
     res.1)

/-! ### The dashboard endpoint (`handleProjectDashboard`)

SQL `ORDER BY ... DESC LIMIT n` becomes an insertion sort on the key,
descending, followed by `take n`; `date('now', '-30 days')` becomes the
`cutoff` argument, and `date > cutoff` keeps a meeting.  The executive
summary call has the same throw-or-text outcome type as the insight
extractor. -/

def insertDesc (key : α → Nat) (x : α) : List α → List α
  | [] => [x]
  | y :: ys => if key y < key x then x :: y :: ys else y :: insertDesc key x ys

def sortDesc (key : α → Nat) (l : List α) : List α :=
  l.foldr (insertDesc key) []

structure DashMeeting where
  title : String
  date : Nat
  summary : String
  action_items : List String
  risks : List RiskFlag
  deriving DecidableEq

structure TaskStat where
  status : String
  count : Nat
  estimated_hours : Nat
  actual_hours : Nat
  deriving DecidableEq

structure DashboardView where
  project : DashProjectRow
  insights : List InsightRow
  recentMeetings : List DashMeeting
  taskBreakdown : List TaskStat
  executiveSummary : String
  deriving DecidableEq

inductive DashboardResult where
  | notFound
  | ok (view : DashboardView)
  deriving DecidableEq

/-- The `catch` branch of `generateExecutiveSummary`. -/
def execSummaryFallback (p : DashProjectRow) (insights : List InsightRow) : String :=
  "Project " ++ p.name ++ " is " ++ lowerStr p.timeline_status ++ " with " ++
    natDecimal p.profit_margin_percent ++ "% profit margin. " ++
    natDecimal insights.length ++ " insights requiring attention."

def generateExecutiveSummary (p : DashProjectRow) (insights : List InsightRow)
    (ai : Except Unit String) : String :=
  match ai with
  | .ok s => s
  | .error _ => execSummaryFallback p insights

/-- `SELECT status, COUNT(*), SUM(estimated_hours), SUM(actual_hours)
FROM tasks WHERE project_id = ? GROUP BY status`. -/
def taskBreakdownOf (tasks : List TaskRow) : List TaskStat :=
  ((tasks.map (·.status)).dedup).map fun s =>
    let g := tasks.filter fun t => t.status == s
    ⟨s, g.length, (g.map (·.estimated_hours)).sum, (g.map (·.actual_hours)).sum⟩

def handleProjectDashboard (db : DBState) (projectId : String)
    (ai : Except Unit String) (cutoff : Nat) : DashboardResult :=
  match db.dash_projects.filter fun p => p.id == projectId with
  | [] => .notFound
  | project :: _ =>
    let insights :=
      (sortDesc (·.extracted_at)
        (db.project_insights.filter fun i => i.project_id == projectId)).take 10
    let recentMeetings :=
      (sortDesc (·.date)
        (db.meetings.filter fun m =>
          m.project_id == some projectId && decide (cutoff < m.date))).take 5
    .ok
      { project := project
        insights := insights
        recentMeetings := recentMeetings.map fun m =>
          ⟨m.title, m.date, m.summary, m.action_items, m.ai_risk_flags⟩
        taskBreakdown := taskBreakdownOf (db.tasks.filter fun t => t.project_id == projectId)
        executiveSummary := generateExecutiveSummary project insights ai }

/-! ### Storage-level lemmas -/

theorem upsertMeeting_mem_self (rows : List MeetingRow) (row : MeetingRow) :
    row ∈ upsertMeeting rows row := by
  unfold upsertMeeting
  split
  · rename_i hany
    rw [List.any_eq_true] at hany
    obtain ⟨r, hr, hid⟩ := hany
    exact List.mem_map.mpr ⟨r, hr, by rw [if_pos hid]⟩
  · exact List.mem_append_right _ (List.mem_singleton.mpr rfl)

theorem upsertMeeting_mem_of_ne {rows : List MeetingRow} {r row : MeetingRow}
    (hr : r ∈ rows) (hne : r.id ≠ row.id) : r ∈ upsertMeeting rows row := by
  unfold upsertMeeting
  split
  · refine List.mem_map.mpr ⟨r, hr, ?_⟩
    rw [if_neg (by simpa using hne)]
  · exact List.mem_append_left _ hr

theorem upsertMeeting_fresh {rows : List MeetingRow} {row : MeetingRow}
    (h : ∀ r ∈ rows, r.id ≠ row.id) : upsertMeeting rows row = rows ++ [row] := by
  unfold upsertMeeting
  rw [if_neg]
  intro hany
  rw [List.any_eq_true] at hany
  obtain ⟨r, hr, hid⟩ := hany
  exact h r hr (by simpa using hid)

theorem putBlob_mem_self (blobs : List (String × String)) (key content : String) :
    (key, content) ∈ putBlob blobs key content := by
  unfold putBlob
  split
  · rename_i hany
    rw [List.any_eq_true] at hany
    obtain ⟨b, hb, hk⟩ := hany
    exact List.mem_map.mpr ⟨b, hb, by rw [if_pos hk]⟩
  · exact List.mem_append_right _ (List.mem_singleton.mpr rfl)

theorem putBlob_mem_of_ne {blobs : List (String × String)} {b : String × String}
    {key content : String} (hb : b ∈ blobs) (hne : b.1 ≠ key) :
    b ∈ putBlob blobs key content := by
  unfold putBlob
  split
  · refine List.mem_map.mpr ⟨b, hb, ?_⟩
    rw [if_neg (by simpa using hne)]
  · exact List.mem_append_left _ hb

/-- The R2 object key is injective in the meeting id. -/
theorem blobKey_inj {a b : String}
    (h : "meetings/meeting-" ++ a ++ ".md" = "meetings/meeting-" ++ b ++ ".md") : a = b := by
  have hd := congrArg String.data h
  simp only [data_append, List.append_assoc] at hd
  have h₁ := List.append_cancel_left hd
  have h₂ := List.append_cancel_right h₁
  exact string_eq_of_data h₂

/-! ### Insert-loop lemmas -/

/-- The rows committed by a non-rejecting run of the insert loop starting
at clock read `tick0`. -/
def loopRows (o : Oracle) (tid pid : String) : List SubInsight → Nat → List InsightRow
  | [], _ => []
  | ins :: rest, tick0 => mkInsightRow tid pid ins (o.time tick0) :: loopRows o tid pid rest (tick0 + 1)

theorem insertLoop_nil (o : Oracle) (tid pid : String) (ta : Option Nat) (st : DBState) :
    insertLoop o tid pid [] ta st = (st, .ok ()) := rfl

theorem insertLoop_cons_throw (o : Oracle) (tid pid : String) (ins : SubInsight)
    (rest : List SubInsight) (st : DBState) :
    insertLoop o tid pid (ins :: rest) (some 0) st =
      ({ st with tick := st.tick + 1 }, .error ()) := by
  simp [insertLoop]

theorem insertLoop_cons_go (o : Oracle) (tid pid : String) (ins : SubInsight)
    (rest : List SubInsight) {ta : Option Nat} (h : ta ≠ some 0) (st : DBState) :
    insertLoop o tid pid (ins :: rest) ta st =
      insertLoop o tid pid rest (ta.map fun k => k - 1)
        { st with tick := st.tick + 1
                  project_insights :=
                    st.project_insights ++ [mkInsightRow tid pid ins (o.time st.tick)] } := by
  simp [insertLoop, h]

theorem insertLoop_outcome (o : Oracle) (tid pid : String) :
    ∀ (l : List SubInsight) (ta : Option Nat) (st : DBState),
      (insertLoop o tid pid l ta st).2 =
        if loopFails ta l.length then .error () else .ok () := by
  intro l
  induction l with
  | nil =>
    intro ta st
    rw [insertLoop_nil]
    cases ta <;> simp [loopFails]
  | cons ins rest ih =>
    intro ta st
    match ta with
    | none =>
      rw [insertLoop_cons_go o tid pid ins rest (by simp) st]
      dsimp only [Option.map]
      rw [ih none _]
      simp [loopFails]
    | some 0 =>
      rw [insertLoop_cons_throw]
      simp [loopFails]
    | some (k + 1) =>
      rw [insertLoop_cons_go o tid pid ins rest (by simp) st]
      dsimp only [Option.map]
      rw [ih (some (k + 1 - 1)) _]
      simp [loopFails, Nat.succ_lt_succ_iff]

theorem insertLoop_no_throw (o : Oracle) (tid pid : String) :
    ∀ (l : List SubInsight) (ta : Option Nat) (st : DBState),
      loopFails ta l.length = false →
      insertLoop o tid pid l ta st =
        ({ st with
            project_insights := st.project_insights ++ loopRows o tid pid l st.tick
            tick := st.tick + l.length }, .ok ()) := by
  intro l
  induction l with
  | nil =>
    intro ta st _
    rw [insertLoop_nil]
    simp [loopRows]
  | cons ins rest ih =>
    intro ta st hl
    match ta with
    | none =>
      rw [insertLoop_cons_go o tid pid ins rest (by simp) st]
      dsimp only [Option.map]
      rw [ih none _ (by simp [loopFails])]
      simp only [loopRows, List.length_cons]
      refine Prod.ext ?_ rfl
      simp only [List.append_assoc, List.singleton_append]
      congr 1
      omega
    | some 0 => simp [loopFails] at hl
    | some (k + 1) =>
      simp only [loopFails, List.length_cons, decide_eq_false_iff_not] at hl
      rw [insertLoop_cons_go o tid pid ins rest (by simp) st]
      dsimp only [Option.map]
      rw [ih (some (k + 1 - 1)) _ (by simp only [loopFails, decide_eq_false_iff_not]; omega)]
      simp only [loopRows, List.length_cons]
      refine Prod.ext ?_ rfl
      simp only [List.append_assoc, List.singleton_append]
      congr 1
      omega

/-- State components not written by the insert loop, and growth facts. -/
theorem insertLoop_state (o : Oracle) (tid pid : String) :
    ∀ (l : List SubInsight) (ta : Option Nat) (st : DBState),
      (insertLoop o tid pid l ta st).1.projects = st.projects ∧
      (insertLoop o tid pid l ta st).1.dash_projects = st.dash_projects ∧
      (insertLoop o tid pid l ta st).1.meetings = st.meetings ∧
      (insertLoop o tid pid l ta st).1.tasks = st.tasks ∧
      (insertLoop o tid pid l ta st).1.blobs = st.blobs ∧
      st.tick ≤ (insertLoop o tid pid l ta st).1.tick ∧
      ∃ new, (insertLoop o tid pid l ta st).1.project_insights =
        st.project_insights ++ new := by
  intro l
  induction l with
  | nil =>
    intro ta st
    rw [insertLoop_nil]
    exact ⟨rfl, rfl, rfl, rfl, rfl, le_refl _, [], by simp⟩
  | cons ins rest ih =>
    intro ta st
    by_cases hta : ta = some 0
    · subst hta
      rw [insertLoop_cons_throw]
      exact ⟨rfl, rfl, rfl, rfl, rfl, Nat.le_succ _, [], by simp⟩
    · rw [insertLoop_cons_go o tid pid ins rest hta st]
      obtain ⟨h₁, h₂, h₃, h₄, h₅, h₆, new, h₇⟩ := ih (ta.map fun k => k - 1)
        { st with tick := st.tick + 1
                  project_insights :=
                    st.project_insights ++ [mkInsightRow tid pid ins (o.time st.tick)] }
      refine ⟨h₁, h₂, h₃, h₄, h₅, ?_, mkInsightRow tid pid ins (o.time st.tick) :: new, ?_⟩
      · exact le_trans (Nat.le_succ _) h₆
      · rw [h₇]
        simp

/-! ### Pipeline lemmas -/

theorem loopRows_length (o : Oracle) (tid pid : String) :
    ∀ (l : List SubInsight) (k : Nat), (loopRows o tid pid l k).length = l.length := by
  intro l
  induction l with
  | nil => intro k; rfl
  | cons ins rest ih => intro k; simp [loopRows, ih]

/-- The `project_insights` rows committed by one successful pipeline run
starting at clock read `tick0` (`tick0` itself is consumed by the
`created_at` timestamp of the meeting upsert). -/
def pipeInsightRows (o : Oracle) (projects : List Project) (t : Transcript)
    (bi : Insight) (tick0 : Nat) : List InsightRow :=
  match associateTranscriptWithProject projects t.title with
  | some pid => loopRows o t.id pid bi.insights (tick0 + 1)
  | none => []

theorem runPipeline_meetingThrow (o : Oracle) (t : Transcript) (e : TEnv) (st : DBState)
    (hm : e.meetingInsertThrows = true) :
    runPipeline o t e st = ({ st with tick := st.tick + 1 }, .error ()) := by
  unfold runPipeline
  simp [hm]


/-! ### Publish-stage lemmas -/

theorem publishStage_projects (o : Oracle) (t : Transcript) (r2 : Bool) (bi : Insight)
    (pid : Option String) (res : DBState × Except Unit Unit) :
    (publishStage o t r2 bi pid res).1.projects = res.1.projects := by
  obtain ⟨st₃, r⟩ := res
  cases r <;> simp [publishStage] <;> split <;> rfl

theorem publishStage_dash (o : Oracle) (t : Transcript) (r2 : Bool) (bi : Insight)
    (pid : Option String) (res : DBState × Except Unit Unit) :
    (publishStage o t r2 bi pid res).1.dash_projects = res.1.dash_projects := by
  obtain ⟨st₃, r⟩ := res
  cases r <;> simp [publishStage] <;> split <;> rfl

theorem publishStage_tasks (o : Oracle) (t : Transcript) (r2 : Bool) (bi : Insight)
    (pid : Option String) (res : DBState × Except Unit Unit) :
    (publishStage o t r2 bi pid res).1.tasks = res.1.tasks := by
  obtain ⟨st₃, r⟩ := res
  cases r <;> simp [publishStage] <;> split <;> rfl

theorem publishStage_meetings (o : Oracle) (t : Transcript) (r2 : Bool) (bi : Insight)
    (pid : Option String) (res : DBState × Except Unit Unit) :
    (publishStage o t r2 bi pid res).1.meetings = res.1.meetings := by
  obtain ⟨st₃, r⟩ := res
  cases r <;> simp [publishStage] <;> split <;> rfl

theorem publishStage_insights (o : Oracle) (t : Transcript) (r2 : Bool) (bi : Insight)
    (pid : Option String) (res : DBState × Except Unit Unit) :
    (publishStage o t r2 bi pid res).1.project_insights = res.1.project_insights := by
  obtain ⟨st₃, r⟩ := res
  cases r <;> simp [publishStage] <;> split <;> rfl

theorem publishStage_tick_le (o : Oracle) (t : Transcript) (r2 : Bool) (bi : Insight)
    (pid : Option String) (res : DBState × Except Unit Unit) :
    res.1.tick ≤ (publishStage o t r2 bi pid res).1.tick := by
  obtain ⟨st₃, r⟩ := res
  cases r
  · simp [publishStage]
  · simp only [publishStage]
    split
    · exact Nat.le_succ _
    · exact Nat.le_succ _

theorem publishStage_outcome (o : Oracle) (t : Transcript) (r2 : Bool) (bi : Insight)
    (pid : Option String) (res : DBState × Except Unit Unit) :
    (publishStage o t r2 bi pid res).2 =
      match res.2 with
      | .error _ => .error ()
      | .ok _ => if r2 then .error () else .ok t.id := by
  obtain ⟨st₃, r⟩ := res
  cases r
  · rfl
  · simp only [publishStage]
    split <;> rfl

theorem publishStage_blob_of_ne (o : Oracle) (t : Transcript) (r2 : Bool) (bi : Insight)
    (pid : Option String) (res : DBState × Except Unit Unit) {b : String × String}
    (hb : b ∈ res.1.blobs) (hne : b.1 ≠ "meetings/meeting-" ++ t.id ++ ".md") :
    b ∈ (publishStage o t r2 bi pid res).1.blobs := by
  obtain ⟨st₃, r⟩ := res
  cases r
  · exact hb
  · simp only [publishStage]
    split
    · exact hb
    · exact putBlob_mem_of_ne hb hne

theorem publishStage_ok_blobs (o : Oracle) (t : Transcript) (bi : Insight)
    (pid : Option String) (res : DBState × Except Unit Unit) {u : Unit}
    (hok : res.2 = .ok u) :
    (publishStage o t false bi pid res).1.blobs =
      putBlob res.1.blobs ("meetings/meeting-" ++ t.id ++ ".md")
        (createEnhancedMarkdown t bi pid o.localeDate (o.iso (o.time res.1.tick))) := by
  obtain ⟨st₃, r⟩ := res
  cases r
  · exact absurd hok (by simp)
  · simp [publishStage]

/-! ### Pipeline-level lemmas -/

/-- The state right after the meeting upsert of one pipeline run. -/
def midState (o : Oracle) (t : Transcript) (e : TEnv) (st : DBState) : DBState :=
  { st with
      tick := st.tick + 1
      meetings := upsertMeeting st.meetings
        (mkMeetingRow t e.insight (associateTranscriptWithProject st.projects t.title)
          (o.iso (o.time st.tick))) }

/-- State and outcome after the insight-insert phase of one pipeline run. -/
def afterInsightsRes (o : Oracle) (t : Transcript) (e : TEnv) (st : DBState) :
    DBState × Except Unit Unit :=
  match associateTranscriptWithProject st.projects t.title with
  | some pid =>
    if e.insight.insights.length > 0 then
      insertLoop o t.id pid e.insight.insights e.insightInsertThrowsAt (midState o t e st)
    else (midState o t e st, .ok ())
  | none => (midState o t e st, .ok ())

theorem runPipeline_go (o : Oracle) (t : Transcript) (e : TEnv) (st : DBState)
    (hm : e.meetingInsertThrows = false) :
    runPipeline o t e st =
      publishStage o t e.r2PutThrows e.insight
        (associateTranscriptWithProject st.projects t.title)
        (afterInsightsRes o t e st) := by
  unfold runPipeline afterInsightsRes midState
  simp only [hm, Bool.false_eq_true, if_false]

theorem afterInsightsRes_outcome (o : Oracle) (t : Transcript) (e : TEnv) (st : DBState) :
    (afterInsightsRes o t e st).2 =
      if (match associateTranscriptWithProject st.projects t.title with
          | some _ => loopFails e.insightInsertThrowsAt e.insight.insights.length
          | none => false) then .error () else .ok () := by
  unfold afterInsightsRes
  cases ha : associateTranscriptWithProject st.projects t.title with
  | none => simp
  | some pid =>
    by_cases hlen : e.insight.insights.length > 0
    · simp only [hlen, if_true]
      exact insertLoop_outcome o t.id pid e.insight.insights e.insightInsertThrowsAt _
    · simp only [hlen, if_false]
      have hnil : e.insight.insights = [] := List.length_eq_zero.mp (by omega)
      rw [hnil]
      simp [loopFails]
      cases e.insightInsertThrowsAt <;> simp

theorem afterInsightsRes_state (o : Oracle) (t : Transcript) (e : TEnv) (st : DBState) :
    (afterInsightsRes o t e st).1.projects = st.projects ∧
    (afterInsightsRes o t e st).1.dash_projects = st.dash_projects ∧
    (afterInsightsRes o t e st).1.tasks = st.tasks ∧
    (afterInsightsRes o t e st).1.blobs = st.blobs ∧
    (afterInsightsRes o t e st).1.meetings = (midState o t e st).meetings ∧
    st.tick ≤ (afterInsightsRes o t e st).1.tick ∧
    ∃ new, (afterInsightsRes o t e st).1.project_insights = st.project_insights ++ new := by
  unfold afterInsightsRes
  cases ha : associateTranscriptWithProject st.projects t.title with
  | none =>
    exact ⟨rfl, rfl, rfl, rfl, rfl, Nat.le_succ _, [], by simp [midState]⟩
  | some pid =>
    dsimp only
    by_cases hlen : e.insight.insights.length > 0
    · simp only [hlen, if_true]
      obtain ⟨h₁, h₂, h₃, h₄, h₅, h₆, new, h₇⟩ :=
        insertLoop_state o t.id pid e.insight.insights e.insightInsertThrowsAt (midState o t e st)
      refine ⟨by rw [h₁]; rfl, by rw [h₂]; rfl, by rw [h₄]; rfl, by rw [h₅]; rfl,
        h₃, le_trans (Nat.le_succ _) h₆, new, by rw [h₇]; rfl⟩
    · rw [if_neg hlen]
      exact ⟨rfl, rfl, rfl, rfl, rfl, Nat.le_succ _, [], by simp [midState]⟩

theorem runPipeline_outcome (o : Oracle) (t : Transcript) (e : TEnv) (st : DBState) :
    (runPipeline o t e st).2 = pipelineOutcome st.projects t e := by
  by_cases hm : e.meetingInsertThrows = true
  · rw [runPipeline_meetingThrow o t e st hm]
    unfold pipelineOutcome
    simp [hm]
  · have hm' : e.meetingInsertThrows = false := by simpa using hm
    rw [runPipeline_go o t e st hm', publishStage_outcome, afterInsightsRes_outcome]
    unfold pipelineOutcome
    simp only [hm', Bool.false_eq_true, if_false]
    by_cases hc : (match associateTranscriptWithProject st.projects t.title with
                   | some _ => loopFails e.insightInsertThrowsAt e.insight.insights.length
                   | none => false) = true
    · simp [hc]
    · simp only [Bool.not_eq_true] at hc
      simp [hc]

theorem runPipeline_state (o : Oracle) (t : Transcript) (e : TEnv) (st : DBState) :
    (runPipeline o t e st).1.projects = st.projects ∧
    (runPipeline o t e st).1.dash_projects = st.dash_projects ∧
    (runPipeline o t e st).1.tasks = st.tasks ∧
    st.tick ≤ (runPipeline o t e st).1.tick ∧
    ∃ new, (runPipeline o t e st).1.project_insights = st.project_insights ++ new := by
  by_cases hm : e.meetingInsertThrows = true
  · rw [runPipeline_meetingThrow o t e st hm]
    exact ⟨rfl, rfl, rfl, Nat.le_succ _, [], by simp⟩
  · have hm' : e.meetingInsertThrows = false := by simpa using hm
    rw [runPipeline_go o t e st hm']
    obtain ⟨h₁, h₂, h₃, h₄, h₅, h₆, new, h₇⟩ := afterInsightsRes_state o t e st
    refine ⟨?_, ?_, ?_, ?_, new, ?_⟩
    · rw [publishStage_projects, h₁]
    · rw [publishStage_dash, h₂]
    · rw [publishStage_tasks, h₃]
    · exact le_trans h₆ (publishStage_tick_le _ _ _ _ _ _)
    · rw [publishStage_insights, h₇]

theorem mkMeetingRow_id (t : Transcript) (bi : Insight) (pid : Option String)
    (c : String) : (mkMeetingRow t bi pid c).id = t.id := rfl

theorem runPipeline_preserves_meeting (o : Oracle) (t : Transcript) (e : TEnv)
    (st : DBState) {r : MeetingRow} (hr : r ∈ st.meetings) (hne : r.id ≠ t.id) :
    r ∈ (runPipeline o t e st).1.meetings := by
  by_cases hm : e.meetingInsertThrows = true
  · rw [runPipeline_meetingThrow o t e st hm]
    exact hr
  · have hm' : e.meetingInsertThrows = false := by simpa using hm
    rw [runPipeline_go o t e st hm', publishStage_meetings,
      (afterInsightsRes_state o t e st).2.2.2.2.1]
    exact upsertMeeting_mem_of_ne hr (by rw [mkMeetingRow_id]; exact hne)

theorem runPipeline_preserves_blob (o : Oracle) (t : Transcript) (e : TEnv)
    (st : DBState) {b : String × String} (hb : b ∈ st.blobs)
    (hne : b.1 ≠ "meetings/meeting-" ++ t.id ++ ".md") :
    b ∈ (runPipeline o t e st).1.blobs := by
  by_cases hm : e.meetingInsertThrows = true
  · rw [runPipeline_meetingThrow o t e st hm]
    exact hb
  · have hm' : e.meetingInsertThrows = false := by simpa using hm
    rw [runPipeline_go o t e st hm']
    refine publishStage_blob_of_ne o t e.r2PutThrows e.insight _ _ ?_ hne
    rw [(afterInsightsRes_state o t e st).2.2.2.1]
    exact hb

/-- On a fully successful pipeline run: the meeting row is the upsert of
the row derived from this transcript, and the published blob is the
rendered markdown at this transcript's key (at some generation
timestamp). -/
theorem runPipeline_success_effects (o : Oracle) (t : Transcript) (e : TEnv)
    (st : DBState) (hm : e.meetingInsertThrows = false)
    (hl : (match associateTranscriptWithProject st.projects t.title with
           | some _ => loopFails e.insightInsertThrowsAt e.insight.insights.length
           | none => false) = false)
    (hr : e.r2PutThrows = false) :
    (∃ c, (runPipeline o t e st).1.meetings =
        upsertMeeting st.meetings
          (mkMeetingRow t e.insight (associateTranscriptWithProject st.projects t.title) c)) ∧
    (∃ g, (runPipeline o t e st).1.blobs =
        putBlob st.blobs ("meetings/meeting-" ++ t.id ++ ".md")
          (createEnhancedMarkdown t e.insight
            (associateTranscriptWithProject st.projects t.title) o.localeDate g)) := by
  rw [runPipeline_go o t e st hm, hr]
  have hok : (afterInsightsRes o t e st).2 = .ok () := by
    rw [afterInsightsRes_outcome, hl]
    simp
  constructor
  · refine ⟨o.iso (o.time st.tick), ?_⟩
    rw [publishStage_meetings, (afterInsightsRes_state o t e st).2.2.2.2.1]
    rfl
  · refine ⟨o.iso (o.time (afterInsightsRes o t e st).1.tick), ?_⟩
    rw [publishStage_ok_blobs o t e.insight _ _ hok,
      (afterInsightsRes_state o t e st).2.2.2.1]

/-- When project association returned no project, the pipeline inserts no
`project_insights` rows. -/
theorem runPipeline_assoc_none (o : Oracle) (t : Transcript) (e : TEnv) (st : DBState)
    (h : associateTranscriptWithProject st.projects t.title = none) :
    (runPipeline o t e st).1.project_insights = st.project_insights := by
  by_cases hm : e.meetingInsertThrows = true
  · rw [runPipeline_meetingThrow o t e st hm]
  · have hm' : e.meetingInsertThrows = false := by simpa using hm
    rw [runPipeline_go o t e st hm', publishStage_insights]
    unfold afterInsightsRes
    rw [h]
    rfl

/-! ### Batch-level lemmas -/

theorem runBatch_state (o : Oracle) : ∀ (batch : List (Transcript × TEnv)) (st : DBState),
    (runBatch o batch st).1.projects = st.projects ∧
    (runBatch o batch st).1.dash_projects = st.dash_projects ∧
    (runBatch o batch st).1.tasks = st.tasks ∧
    st.tick ≤ (runBatch o batch st).1.tick ∧
    ∃ new, (runBatch o batch st).1.project_insights = st.project_insights ++ new := by
  intro batch
  induction batch with
  | nil =>
    intro st
    exact ⟨rfl, rfl, rfl, le_refl _, [], by simp [runBatch]⟩
  | cons te rest ih =>
    intro st
    obtain ⟨t, e⟩ := te
    obtain ⟨p₁, p₂, p₃, p₄, new₁, p₅⟩ := runPipeline_state o t e st
    obtain ⟨q₁, q₂, q₃, q₄, new₂, q₅⟩ := ih (runPipeline o t e st).1
    refine ⟨by rw [runBatch]; rw [q₁, p₁], by rw [runBatch]; rw [q₂, p₂],
      by rw [runBatch]; rw [q₃, p₃], ?_, new₁ ++ new₂, ?_⟩
    · rw [runBatch]
      exact le_trans p₄ q₄
    · rw [runBatch]
      dsimp only
      rw [q₅, p₅, List.append_assoc]

theorem runBatch_outcomes (o : Oracle) : ∀ (batch : List (Transcript × TEnv)) (st : DBState),
    (runBatch o batch st).2 = batch.map fun te => pipelineOutcome st.projects te.1 te.2 := by
  intro batch
  induction batch with
  | nil => intro st; rfl
  | cons te rest ih =>
    intro st
    obtain ⟨t, e⟩ := te
    rw [runBatch]
    dsimp only
    rw [runPipeline_outcome, ih (runPipeline o t e st).1, (runPipeline_state o t e st).1,
      List.map_cons]

theorem runBatch_preserves_meeting (o : Oracle) :
    ∀ (batch : List (Transcript × TEnv)) (st : DBState) {r : MeetingRow},
      r ∈ st.meetings → (∀ te ∈ batch, (te : Transcript × TEnv).1.id ≠ r.id) →
      r ∈ (runBatch o batch st).1.meetings := by
  intro batch
  induction batch with
  | nil => intro st r hr _; exact hr
  | cons te rest ih =>
    intro st r hr hne
    obtain ⟨t, e⟩ := te
    rw [runBatch]
    refine ih (runPipeline o t e st).1 ?_ ?_
    · exact runPipeline_preserves_meeting o t e st hr
        fun h => hne (t, e) (List.mem_cons_self _ _) (h ▸ rfl)
    · intro te' hte'
      exact hne te' (List.mem_cons_of_mem _ hte')

theorem runBatch_preserves_blob (o : Oracle) :
    ∀ (batch : List (Transcript × TEnv)) (st : DBState) {b : String × String},
      b ∈ st.blobs →
      (∀ te ∈ batch, b.1 ≠ "meetings/meeting-" ++ (te : Transcript × TEnv).1.id ++ ".md") →
      b ∈ (runBatch o batch st).1.blobs := by
  intro batch
  induction batch with
  | nil => intro st b hb _; exact hb
  | cons te rest ih =>
    intro st b hb hne
    obtain ⟨t, e⟩ := te
    rw [runBatch]
    refine ih (runPipeline o t e st).1 ?_ ?_
    · exact runPipeline_preserves_blob o t e st hb (hne (t, e) (List.mem_cons_self _ _))
    · intro te' hte'
      exact hne te' (List.mem_cons_of_mem _ hte')

theorem pipelineOutcome_ok_inv {projects : List Project} {t : Transcript} {e : TEnv}
    {s : String} (h : pipelineOutcome projects t e = .ok s) :
    e.meetingInsertThrows = false ∧
    (match associateTranscriptWithProject projects t.title with
     | some _ => loopFails e.insightInsertThrowsAt e.insight.insights.length
     | none => false) = false ∧
    e.r2PutThrows = false ∧ s = t.id := by
  unfold pipelineOutcome at h
  by_cases hm : e.meetingInsertThrows = true
  · rw [if_pos hm] at h
    exact absurd h (by simp)
  · rw [if_neg hm] at h
    by_cases hc : (match associateTranscriptWithProject projects t.title with
                   | some _ => loopFails e.insightInsertThrowsAt e.insight.insights.length
                   | none => false) = true
    · rw [if_pos hc] at h
      exact absurd h (by simp)
    · rw [if_neg hc] at h
      by_cases hr : e.r2PutThrows = true
      · rw [if_pos hr] at h
        exact absurd h (by simp)
      · rw [if_neg hr] at h
        refine ⟨by simpa using hm, by simpa using hc, by simpa using hr, ?_⟩
        cases h
        rfl

/-- A transcript whose own pipeline succeeds ends up recorded (its derived
meeting row present) and published (its rendered document present), no
matter what the other transcripts in the batch did — provided the batch's
transcript ids are distinct, so that no sibling overwrites it. -/
theorem runBatch_success_effects (o : Oracle) :
    ∀ (batch : List (Transcript × TEnv)) (st : DBState),
      (batch.map fun te => te.1.id).Nodup →
      ∀ t e, (t, e) ∈ batch → pipelineOutcome st.projects t e = .ok t.id →
      (∃ c, mkMeetingRow t e.insight (associateTranscriptWithProject st.projects t.title) c ∈
          (runBatch o batch st).1.meetings) ∧
      (∃ g, ("meetings/meeting-" ++ t.id ++ ".md",
          createEnhancedMarkdown t e.insight
            (associateTranscriptWithProject st.projects t.title) o.localeDate g) ∈
          (runBatch o batch st).1.blobs) := by
  intro batch
  induction batch with
  | nil => intro st _ t e hmem; exact absurd hmem (List.not_mem_nil _)
  | cons te rest ih =>
    intro st hnd t e hmem hok
    obtain ⟨t₀, e₀⟩ := te
    rw [List.map_cons, List.nodup_cons] at hnd
    rcases List.mem_cons.mp hmem with heq | hmem'
    · have ht : t₀ = t := congrArg Prod.fst heq.symm
      have he : e₀ = e := congrArg Prod.snd heq.symm
      subst ht
      subst he
      obtain ⟨hm, hl, hr, _⟩ := pipelineOutcome_ok_inv hok
      obtain ⟨⟨c, hcm⟩, ⟨g, hgb⟩⟩ := runPipeline_success_effects o t₀ e₀ st hm hl hr
      rw [runBatch]
      dsimp only
      constructor
      · refine ⟨c, runBatch_preserves_meeting o rest _ ?_ ?_⟩
        · rw [hcm]
          exact upsertMeeting_mem_self _ _
        · intro te' hte'
          rw [mkMeetingRow_id]
          intro hid
          exact hnd.1 (List.mem_map.mpr ⟨te', hte', hid⟩)
      · refine ⟨g, runBatch_preserves_blob o rest _ ?_ ?_⟩
        · rw [hgb]
          exact putBlob_mem_self _ _ _
        · intro te' hte' hkey
          exact hnd.1 (List.mem_map.mpr ⟨te', hte', (blobKey_inj hkey).symm⟩)
    · rw [runBatch]
      dsimp only
      have hproj : (runPipeline o t₀ e₀ st).1.projects = st.projects :=
        (runPipeline_state o t₀ e₀ st).1
      have hok' : pipelineOutcome (runPipeline o t₀ e₀ st).1.projects t e = .ok t.id := by
        rw [hproj]
        exact hok
      have := ih (runPipeline o t₀ e₀ st).1 hnd.2 t e hmem' hok'
      rw [hproj] at this
      exact this

/-! ### Tagging inserted insight rows with their clock reads (for id
uniqueness analysis) -/

/-- The rows were inserted at pairwise-distinct clock reads in `[lo, hi)`,
each with the generated id built from its source transcript id and its
timestamp. -/
def RowsTagged (o : Oracle) (lo hi : Nat) (rows : List InsightRow) : Prop :=
  (∀ r ∈ rows, r.id = insightId r.source_meeting_id r.extracted_at ∧
      ∃ k, lo ≤ k ∧ k < hi ∧ r.extracted_at = o.time k) ∧
  rows.Pairwise fun r s => ∃ k₁ k₂, k₁ < k₂ ∧
    r.extracted_at = o.time k₁ ∧ s.extracted_at = o.time k₂

theorem rowsTagged_nil (o : Oracle) (lo hi : Nat) : RowsTagged o lo hi [] :=
  ⟨fun r hr => absurd hr (List.not_mem_nil r), List.Pairwise.nil⟩

theorem rowsTagged_mono {o : Oracle} {lo hi lo' hi' : Nat} {rows : List InsightRow}
    (hlo : lo ≤ lo') (hhi : hi' ≤ hi) (h : RowsTagged o lo' hi' rows) :
    RowsTagged o lo hi rows := by
  refine ⟨?_, h.2⟩
  intro r hr
  obtain ⟨hid, k, hk₁, hk₂, hk₃⟩ := h.1 r hr
  exact ⟨hid, k, le_trans hlo hk₁, lt_of_lt_of_le hk₂ hhi, hk₃⟩

theorem rowsTagged_append {o : Oracle} {lo mid hi : Nat} {l₁ l₂ : List InsightRow}
    (h₁ : RowsTagged o lo mid l₁) (h₂ : RowsTagged o mid hi l₂)
    (hm : lo ≤ mid) (hh : mid ≤ hi) :
    RowsTagged o lo hi (l₁ ++ l₂) := by
  constructor
  · intro r hr
    rcases List.mem_append.mp hr with h | h
    · obtain ⟨hid, k, hk₁, hk₂, hk₃⟩ := h₁.1 r h
      exact ⟨hid, k, hk₁, lt_of_lt_of_le hk₂ hh, hk₃⟩
    · obtain ⟨hid, k, hk₁, hk₂, hk₃⟩ := h₂.1 r h
      exact ⟨hid, k, le_trans hm hk₁, hk₂, hk₃⟩
  · rw [List.pairwise_append]
    refine ⟨h₁.2, h₂.2, ?_⟩
    intro r hr s hs
    obtain ⟨_, k₁, _, hk₁, hts₁⟩ := h₁.1 r hr
    obtain ⟨_, k₂, hk₂, _, hts₂⟩ := h₂.1 s hs
    exact ⟨k₁, k₂, lt_of_lt_of_le hk₁ hk₂, hts₁, hts₂⟩

theorem insertLoop_tagged (o : Oracle) (tid pid : String) :
    ∀ (l : List SubInsight) (ta : Option Nat) (st : DBState),
      ∃ new, (insertLoop o tid pid l ta st).1.project_insights =
          st.project_insights ++ new ∧
        RowsTagged o st.tick (insertLoop o tid pid l ta st).1.tick new := by
  intro l
  induction l with
  | nil =>
    intro ta st
    rw [insertLoop_nil]
    exact ⟨[], by simp, rowsTagged_nil o _ _⟩
  | cons ins rest ih =>
    intro ta st
    by_cases hta : ta = some 0
    · subst hta
      rw [insertLoop_cons_throw]
      exact ⟨[], by simp, rowsTagged_nil o _ _⟩
    · rw [insertLoop_cons_go o tid pid ins rest hta st]
      obtain ⟨new', hins, htag⟩ := ih (ta.map fun k => k - 1)
        { st with tick := st.tick + 1
                  project_insights :=
                    st.project_insights ++ [mkInsightRow tid pid ins (o.time st.tick)] }
      refine ⟨mkInsightRow tid pid ins (o.time st.tick) :: new', ?_, ?_, ?_⟩
      · rw [hins]
        simp
      · intro r hr
        rcases List.mem_cons.mp hr with rfl | hr'
        · refine ⟨rfl, st.tick, le_refl _, ?_, rfl⟩
          have := (insertLoop_state o tid pid rest (ta.map fun k => k - 1)
            { st with tick := st.tick + 1
                      project_insights :=
                        st.project_insights ++ [mkInsightRow tid pid ins (o.time st.tick)] }).2.2.2.2.2.1
          simp only at this
          omega
        · obtain ⟨hid, k, hk₁, hk₂, hk₃⟩ := htag.1 r hr'
          simp only at hk₁
          exact ⟨hid, k, by omega, hk₂, hk₃⟩
      · refine List.Pairwise.cons ?_ htag.2
        intro s hs
        obtain ⟨_, k, hk₁, _, hts⟩ := htag.1 s hs
        simp only at hk₁
        exact ⟨st.tick, k, by omega, rfl, hts⟩

theorem afterInsightsRes_tagged (o : Oracle) (t : Transcript) (e : TEnv) (st : DBState) :
    ∃ new, (afterInsightsRes o t e st).1.project_insights = st.project_insights ++ new ∧
      RowsTagged o st.tick (afterInsightsRes o t e st).1.tick new := by
  unfold afterInsightsRes
  cases ha : associateTranscriptWithProject st.projects t.title with
  | none => exact ⟨[], by simp [midState], rowsTagged_nil o _ _⟩
  | some pid =>
    dsimp only
    by_cases hlen : e.insight.insights.length > 0
    · rw [if_pos hlen]
      obtain ⟨new, hins, htag⟩ :=
        insertLoop_tagged o t.id pid e.insight.insights e.insightInsertThrowsAt (midState o t e st)
      refine ⟨new, ?_, ?_⟩
      · rw [hins]
        rfl
      · exact rowsTagged_mono (Nat.le_succ st.tick) (le_refl _) htag
    · rw [if_neg hlen]
      exact ⟨[], by simp [midState], rowsTagged_nil o _ _⟩

theorem runPipeline_tagged (o : Oracle) (t : Transcript) (e : TEnv) (st : DBState) :
    ∃ new, (runPipeline o t e st).1.project_insights = st.project_insights ++ new ∧
      RowsTagged o st.tick (runPipeline o t e st).1.tick new := by
  by_cases hm : e.meetingInsertThrows = true
  · rw [runPipeline_meetingThrow o t e st hm]
    exact ⟨[], by simp, rowsTagged_nil o _ _⟩
  · have hm' : e.meetingInsertThrows = false := by simpa using hm
    rw [runPipeline_go o t e st hm']
    obtain ⟨new, hins, htag⟩ := afterInsightsRes_tagged o t e st
    refine ⟨new, ?_, ?_⟩
    · rw [publishStage_insights, hins]
    · exact rowsTagged_mono (le_refl _) (publishStage_tick_le _ _ _ _ _ _) htag

theorem runBatch_tagged (o : Oracle) : ∀ (batch : List (Transcript × TEnv)) (st : DBState),
    ∃ new, (runBatch o batch st).1.project_insights = st.project_insights ++ new ∧
      RowsTagged o st.tick (runBatch o batch st).1.tick new := by
  intro batch
  induction batch with
  | nil =>
    intro st
    exact ⟨[], by simp [runBatch], rowsTagged_nil o _ _⟩
  | cons te rest ih =>
    intro st
    obtain ⟨t, e⟩ := te
    obtain ⟨new₁, hins₁, htag₁⟩ := runPipeline_tagged o t e st
    obtain ⟨new₂, hins₂, htag₂⟩ := ih (runPipeline o t e st).1
    refine ⟨new₁ ++ new₂, ?_, ?_⟩
    · rw [runBatch]
      dsimp only
      rw [hins₂, hins₁, List.append_assoc]
    · rw [runBatch]
      dsimp only
      refine rowsTagged_append htag₁ htag₂ ?_ ?_
      · exact (runPipeline_state o t e st).2.2.2.1
      · exact (runBatch_state o rest (runPipeline o t e st).1).2.2.2.1

/-- Distinct clock readings at distinct reads force pairwise-distinct
generated insight ids. -/
theorem rowsTagged_nodup {o : Oracle} {lo hi : Nat} {rows : List InsightRow}
    (hinj : Function.Injective o.time) (h : RowsTagged o lo hi rows) :
    (rows.map (·.id)).Nodup := by
  have hp : rows.Pairwise fun r s => r.id ≠ s.id := by
    refine List.Pairwise.imp_of_mem ?_ h.2
    intro r s hr hs hrel hid
    obtain ⟨k₁, k₂, hlt, hts₁, hts₂⟩ := hrel
    obtain ⟨hid₁, _⟩ := h.1 r hr
    obtain ⟨hid₂, _⟩ := h.1 s hs
    rw [hid₁, hid₂] at hid
    have hts := insightId_ts_inj hid
    rw [hts₁, hts₂] at hts
    exact absurd (hinj hts) (Nat.ne_of_lt hlt)
  exact List.Pairwise.map _ (fun a b hab => hab) hp

/-! ### Insertion-sort lemmas (descending `ORDER BY ... LIMIT n`) -/

theorem insertDesc_length (key : α → Nat) (x : α) :
    ∀ l : List α, (insertDesc key x l).length = l.length + 1 := by
  intro l
  induction l with
  | nil => rfl
  | cons y ys ih =>
    unfold insertDesc
    split
    · simp
    · simp [ih]

theorem mem_insertDesc (key : α → Nat) (x a : α) :
    ∀ l : List α, a ∈ insertDesc key x l ↔ a = x ∨ a ∈ l := by
  intro l
  induction l with
  | nil => simp [insertDesc]
  | cons y ys ih =>
    unfold insertDesc
    split
    · simp only [List.mem_cons]
    · simp only [List.mem_cons, ih]
      tauto

theorem pairwise_insertDesc (key : α → Nat) (x : α) :
    ∀ l : List α, l.Pairwise (fun a b => key b ≤ key a) →
      (insertDesc key x l).Pairwise (fun a b => key b ≤ key a) := by
  intro l
  induction l with
  | nil => intro _; simp [insertDesc]
  | cons y ys ih =>
    intro h
    unfold insertDesc
    split
    · rename_i hlt
      refine List.Pairwise.cons ?_ h
      intro b hb
      rcases List.mem_cons.mp hb with rfl | hb'
      · omega
      · have := (List.pairwise_cons.mp h).1 b hb'
        omega
    · rename_i hge
      refine List.Pairwise.cons ?_ (ih (List.pairwise_cons.mp h).2)
      intro b hb
      rcases (mem_insertDesc key x b ys).mp hb with rfl | hb'
      · omega
      · exact (List.pairwise_cons.mp h).1 b hb'

theorem sortDesc_length (key : α → Nat) (l : List α) :
    (sortDesc key l).length = l.length := by
  induction l with
  | nil => rfl
  | cons y ys ih =>
    unfold sortDesc at ih ⊢
    simp [List.foldr_cons, insertDesc_length, ih]

theorem mem_sortDesc (key : α → Nat) (a : α) (l : List α) :
    a ∈ sortDesc key l ↔ a ∈ l := by
  induction l with
  | nil => simp [sortDesc]
  | cons y ys ih =>
    unfold sortDesc at ih ⊢
    simp [List.foldr_cons, mem_insertDesc, ih]

theorem pairwise_sortDesc (key : α → Nat) (l : List α) :
    (sortDesc key l).Pairwise (fun a b => key b ≤ key a) := by
  induction l with
  | nil => simp [sortDesc]
  | cons y ys ih =>
    unfold sortDesc at ih ⊢
    exact pairwise_insertDesc key y _ ih

/-! ### Concrete fixtures for witnesses and counterexamples -/

def sampleOracle : Oracle := ⟨id, fun _ => "2025-01-01T00:00:00.000Z", fun _ => "1/1/2025"⟩

def constOracle : Oracle := ⟨fun _ => 5, fun _ => "2025-01-01T00:00:00.000Z", fun _ => "1/1/2025"⟩

def emptyDB : DBState := ⟨[], [], [], [], [], [], 0⟩

def sampleT : Transcript := ⟨"t1", "Weekly Sync", 100, 300, [⟨"Ann"⟩], [⟨"hello", "Ann", 0⟩]⟩

def sampleInsight : Insight :=
  ⟨"summary", "project", ["do a"], ["decided b"], [⟨"risk c", "high"⟩], [], false⟩

/-! ### Claim theorems -/

/-- C5: for every batch-level exception during sync (the transcript source
unreachable or erroring entirely), `handleEnhancedMeetingSync` returns the
well-formed payload `{error: "Failed to sync meetings", details, count: 0}`
with HTTP status 200, leaving the state untouched — never an unhandled
failure. -/
theorem c5_batch_error_response (o : Oracle) (e : String) (st : DBState) :
    handleEnhancedMeetingSync o (.error e) st =
      (⟨200, .failure "Failed to sync meetings" e 0⟩, st) := rfl

/-- C6 counterexample: when the transcript source returns no transcript
list, the worker throws `'No transcripts found'` and the catch branch
answers with the error payload, not with the empty-batch success result
the claim describes. -/
theorem c6_counterexample :
    (handleEnhancedMeetingSync sampleOracle (.ok none) emptyDB).1.body =
      .failure "Failed to sync meetings" "No transcripts found" 0 ∧
    (handleEnhancedMeetingSync sampleOracle (.ok none) emptyDB).1.body ≠
      .success 0 ("Successfully synced " ++ natDecimal 0 ++ " meetings with business intelligence")
        0 := by
  refine ⟨rfl, ?_⟩
  intro h
  exact SyncBody.noConfusion h

/-- C6 (amended): a response body without a transcript list is treated as
a caught error — `{error: "Failed to sync meetings", details: "No
transcripts found", count: 0}` at status 200 — while an *empty transcript
array* yields the empty-batch success with count 0. -/
theorem c6_amended (o : Oracle) (st : DBState) :
    (handleEnhancedMeetingSync o (.ok none) st).1 =
      ⟨200, .failure "Failed to sync meetings" "No transcripts found" 0⟩ ∧
    (handleEnhancedMeetingSync o (.ok (some [])) st).1 =
      ⟨200, .success 0
        ("Successfully synced " ++ natDecimal 0 ++ " meetings with business intelligence") 0⟩ :=
  ⟨rfl, rfl⟩

/-- C4 counterexample: byte-identical `(meeting, insight, projectId)`
inputs do not guarantee byte-identical markdown across two calls, because
the template interpolates `new Date().toISOString()` — two calls observing
different wall-clock instants render different `**Generated:**` lines. -/
theorem c4_counterexample :
    createEnhancedMarkdown sampleT sampleInsight (some "p1") (fun _ => "1/1/2025")
        "2025-01-01T00:00:00.000Z" ≠
      createEnhancedMarkdown sampleT sampleInsight (some "p1") (fun _ => "1/1/2025")
        "2025-01-01T00:00:01.000Z" := by
  intro h
  have hd := congrArg String.data h
  simp only [createEnhancedMarkdown, data_append, List.append_assoc] at hd
  have h₁ := List.append_cancel_left hd
  have h₂ := List.append_cancel_right h₁
  exact absurd (string_eq_of_data h₂) (by decide)

/-- C4 (amended): the renderer is deterministic up to the generation
timestamp: for byte-identical `(meeting, insight, projectId)` inputs the
two outputs share one timestamp-independent body and differ only in the
interpolated `toISOString()` text before the constant tail; with equal
observed timestamps the outputs are byte-identical. -/
theorem c4_amended (t : Transcript) (ins : Insight) (pid : Option String)
    (ld : Nat → String) (g₁ g₂ : String) :
    (∃ s, createEnhancedMarkdown t ins pid ld g₁ = s ++ g₁ ++ mdTail ∧
          createEnhancedMarkdown t ins pid ld g₂ = s ++ g₂ ++ mdTail) ∧
    (g₁ = g₂ → createEnhancedMarkdown t ins pid ld g₁ = createEnhancedMarkdown t ins pid ld g₂) :=
  ⟨⟨mdBody t ins pid ld, rfl, rfl⟩, fun h => by rw [h]⟩

/-- C10: in the published markdown transcript section, a sentence with
start-time offset exactly 0 is rendered without a `[minutes:seconds]`
prefix (the offset is falsy), while a positive offset is rendered as
`[offset / 60 : offset % 60 zero-padded to two digits]` before the
speaker and text. -/
theorem c10_timestamp_rendering (s : Sentence) :
    (s.start_time = 0 →
      sentenceLine s = " **" ++ s.speaker_name ++ ":** " ++ s.text) ∧
    (0 < s.start_time →
      sentenceLine s =
        ("[" ++ natDecimal (s.start_time / 60) ++ ":" ++
            padStart2 (natDecimal (s.start_time % 60)) ++ "]") ++
          " **" ++ s.speaker_name ++ ":** " ++ s.text) := by
  constructor
  · intro h
    unfold sentenceLine
    rw [if_neg (by omega)]
    simp
  · intro h
    unfold sentenceLine
    rw [if_pos (by omega)]

theorem c10_witness :
    sentenceLine ⟨"hi", "Bob", 0⟩ = " **Bob:** hi" ∧
    sentenceLine ⟨"hi", "Bob", 65⟩ = "[1:05] **Bob:** hi" := by
  constructor
  · rw [(c10_timestamp_rendering ⟨"hi", "Bob", 0⟩).1 rfl]
    rfl
  · rw [(c10_timestamp_rendering ⟨"hi", "Bob", 65⟩).2 (by decide)]
    rfl

/-- C3 counterexample: a model call that succeeds with valid JSON of the
wrong shape (here the JSON number `42`) is returned by
`generateBusinessInsights` unvalidated — the result is not a structurally
valid Insight, contradicting the claim that a valid Insight is returned
regardless of what the call produced. -/
theorem c3_counterexample :
    generateBusinessInsights sampleT (.ok (some (.num 42))) = .num 42 ∧
    isValidInsightJson (.num 42) = false :=
  ⟨rfl, rfl⟩

/-- C3 (amended): when the model call throws or its output is not valid
JSON (`JSON.parse` throws), `generateBusinessInsights` returns the
degraded fallback — meeting title as summary, meetingType `"project"`,
empty lists, `followUpRequired: false` — which is structurally valid, and
the failure never escapes; but when the output parses as JSON, the parsed
value is returned as-is with no schema validation. -/
theorem c3_amended (t : Transcript) (r : AIResult) :
    ((r = .fail ∨ r = .ok none) →
      generateBusinessInsights t r = fallbackInsightJson t ∧
      isValidInsightJson (fallbackInsightJson t) = true) ∧
    (∀ v, r = .ok (some v) → generateBusinessInsights t r = v) := by
  constructor
  · rintro (rfl | rfl) <;> exact ⟨rfl, rfl⟩
  · rintro v rfl
    rfl

theorem c3_witness :
    (generateBusinessInsights sampleT .fail = fallbackInsightJson sampleT ∧
      isValidInsightJson (fallbackInsightJson sampleT) = true) ∧
    generateBusinessInsights sampleT (.ok (some .null)) = .null :=
  ⟨(c3_amended sampleT .fail).1 (Or.inl rfl),
   (c3_amended sampleT (.ok (some .null))).2 .null rfl⟩

/-- C7 counterexample: SQL `LIKE` treats `_` in a project name as a
single-character wildcard, so the title `"a-b sync"` — which does not
contain the project name `"a_b"` (and no alias is configured) — still
matches, and the matcher returns the project instead of the null the
claim requires for a title containing no known project keyword. -/
theorem c7_counterexample :
    associateTranscriptWithProject [⟨"p1", "a_b", none, 0⟩] "a-b sync" = some "p1" ∧
    hasSub (lowerData "a-b sync") (lowerData "a_b") = false ∧
    ¬ ∃ a b, lowerData "a-b sync" = a ++ lowerData "a_b" ++ b := by
  refine ⟨by decide, by decide, ?_⟩
  intro hex
  obtain ⟨a, b, hab⟩ := hex
  exact absurd ((hasSub_iff _ _).mpr ⟨a, b, hab⟩) (by decide)

/-- C7 (amended): whenever some project's name or configured alias
`LIKE`-matches the transcript title (in particular whenever the lowercased
title contains the lowercased project name as a substring — containment
implies a `LIKE '%name%'` match), the matcher returns a matching project
whose `updated_at` is maximal among all matching projects; and when no
project matches, it returns null as a normal outcome.  `LIKE`-matching
coincides with case-insensitive containment exactly when the name/alias
contains no SQL wildcard. -/
theorem c7_amended :
    (∀ (projects : List Project) (title : String),
        (∃ p ∈ projects, titleMatches title p = true) →
        ∃ q ∈ projects, associateTranscriptWithProject projects title = some q.id ∧
          titleMatches title q = true ∧
          ∀ r ∈ projects, titleMatches title r = true → r.updated_at ≤ q.updated_at) ∧
    (∀ (projects : List Project) (title : String),
        (∀ p ∈ projects, titleMatches title p = false) →
        associateTranscriptWithProject projects title = none) ∧
    (∀ (title : String) (p : Project),
        hasSub (lowerData title) (lowerData p.name) = true →
        titleMatches title p = true) := by
  refine ⟨?_, ?_, ?_⟩
  · intro projects title hex
    obtain ⟨p, hp, hmatch⟩ := hex
    have hfil : p ∈ projects.filter fun q => titleMatches title q :=
      List.mem_filter.mpr ⟨hp, hmatch⟩
    cases hb : bestByUpdatedAt (projects.filter fun q => titleMatches title q) with
    | none =>
      rw [(bestByUpdatedAt_eq_none _).mp hb] at hfil
      exact absurd hfil (List.not_mem_nil p)
    | some q =>
      obtain ⟨hqmem, hqmax⟩ := bestByUpdatedAt_spec _ q hb
      obtain ⟨hqproj, hqmatch⟩ := List.mem_filter.mp hqmem
      refine ⟨q, hqproj, ?_, hqmatch, ?_⟩
      · unfold associateTranscriptWithProject
        rw [hb]
        rfl
      · intro r hr hrmatch
        exact hqmax r (List.mem_filter.mpr ⟨hr, hrmatch⟩)
  · intro projects title hall
    unfold associateTranscriptWithProject
    have hfil : (projects.filter fun q => titleMatches title q) = [] := by
      rw [List.filter_eq_nil_iff]
      intro p hp
      rw [hall p hp]
      simp
    rw [hfil, (bestByUpdatedAt_eq_none []).mpr rfl]
    rfl
  · intro title p hsub
    obtain ⟨a, b, hab⟩ := (hasSub_iff _ _).mp hsub
    unfold titleMatches
    have hlike : likeMatch (likePat p.name) (lowerData title) = true := by
      unfold likePat
      rw [show lowerData title = a ++ ((p.name.data.map Char.toLower) ++ b) by
        rw [hab]; unfold lowerData; simp [List.append_assoc]]
      exact likeMatch_of_contains a (p.name.data.map Char.toLower) b
    rw [hlike]
    rfl

theorem c7_witness :
    (∃ q ∈ [(⟨"p1", "Goodwill", none, 3⟩ : Project), ⟨"p2", "Goodwill", none, 7⟩],
        associateTranscriptWithProject
          [(⟨"p1", "Goodwill", none, 3⟩ : Project), ⟨"p2", "Goodwill", none, 7⟩]
          "Goodwill Weekly Sync" = some q.id ∧
        titleMatches "Goodwill Weekly Sync" q = true ∧
        ∀ r ∈ [(⟨"p1", "Goodwill", none, 3⟩ : Project), ⟨"p2", "Goodwill", none, 7⟩],
          titleMatches "Goodwill Weekly Sync" r = true → r.updated_at ≤ q.updated_at) ∧
    associateTranscriptWithProject [(⟨"p1", "Goodwill", none, 3⟩ : Project)] "standup notes" =
      none ∧
    titleMatches "Goodwill Weekly Sync" ⟨"p1", "Goodwill", none, 3⟩ = true := by
  refine ⟨?_, ?_, ?_⟩
  · exact c7_amended.1 _ "Goodwill Weekly Sync" ⟨⟨"p2", "Goodwill", none, 7⟩, by decide, by decide⟩
  · exact c7_amended.2.1 _ "standup notes" (by decide)
  · exact c7_amended.2.2 "Goodwill Weekly Sync" ⟨"p1", "Goodwill", none, 3⟩ (by decide)

/-- C9: the dashboard returns the not-found error exactly when no
`project_dashboard` row exists for the requested id; for an existing
project it returns a well-formed view — at most 10 insights of that
project ordered by extraction time descending, at most 5 meetings newer
than the 30-day cutoff ordered by date descending — with empty lists (not
an error) when nothing matches, and an executive summary that falls back
to the templated summary string when the summarization call fails. -/
theorem c9_dashboard (db : DBState) (pid : String) (ai : Except Unit String) (cutoff : Nat) :
    (handleProjectDashboard db pid ai cutoff = .notFound ↔
      ∀ p ∈ db.dash_projects, p.id ≠ pid) ∧
    (∀ v, handleProjectDashboard db pid ai cutoff = .ok v →
      v.insights.length ≤ 10 ∧
      v.insights.Pairwise (fun r s => s.extracted_at ≤ r.extracted_at) ∧
      (∀ i ∈ v.insights, i.project_id = pid) ∧
      v.recentMeetings.length ≤ 5 ∧
      v.recentMeetings.Pairwise (fun r s => s.date ≤ r.date) ∧
      (∀ m ∈ v.recentMeetings, cutoff < m.date) ∧
      ((db.project_insights.filter fun i => i.project_id == pid) = [] → v.insights = []) ∧
      ((db.meetings.filter fun m =>
          m.project_id == some pid && decide (cutoff < m.date)) = [] →
        v.recentMeetings = []) ∧
      (ai = .error () → v.executiveSummary = execSummaryFallback v.project v.insights)) := by
  unfold handleProjectDashboard
  cases hf : db.dash_projects.filter fun p => p.id == pid with
  | nil =>
    constructor
    · constructor
      · intro _ p hp hpid
        have : p ∈ db.dash_projects.filter fun p => p.id == pid :=
          List.mem_filter.mpr ⟨hp, by simp [hpid]⟩
        rw [hf] at this
        exact absurd this (List.not_mem_nil p)
      · intro _
        rfl
    · intro v hv
      exact absurd hv (fun h => DashboardResult.noConfusion h)
  | cons p ps =>
    constructor
    · constructor
      · intro h
        exact absurd h (fun h => DashboardResult.noConfusion h)
      · intro hall
        have hp : p ∈ db.dash_projects.filter fun p => p.id == pid := by
          rw [hf]
          exact List.mem_cons_self p ps
        obtain ⟨hmem, hbeq⟩ := List.mem_filter.mp hp
        exact absurd (by simpa using hbeq) (hall p hmem)
    · intro v hv
      have hv' : v =
          { project := p
            insights := (sortDesc (·.extracted_at)
              (db.project_insights.filter fun i => i.project_id == pid)).take 10
            recentMeetings := ((sortDesc (·.date)
              (db.meetings.filter fun m =>
                m.project_id == some pid && decide (cutoff < m.date))).take 5).map fun m =>
                  ⟨m.title, m.date, m.summary, m.action_items, m.ai_risk_flags⟩
            taskBreakdown := taskBreakdownOf (db.tasks.filter fun t => t.project_id == pid)
            executiveSummary := generateExecutiveSummary p
              ((sortDesc (·.extracted_at)
                (db.project_insights.filter fun i => i.project_id == pid)).take 10) ai } := by
        cases hv
        rfl
      subst hv'
      refine ⟨?_, ?_, ?_, ?_, ?_, ?_, ?_, ?_, ?_⟩
      · rw [List.length_take]
        exact min_le_left _ _
      · exact List.Pairwise.sublist (List.take_sublist _ _) (pairwise_sortDesc _ _)
      · intro i hi
        have hi' : i ∈ sortDesc (·.extracted_at)
            (db.project_insights.filter fun i => i.project_id == pid) :=
          (List.take_sublist _ _).subset hi
        have := (List.mem_filter.mp ((mem_sortDesc _ _ _).mp hi')).2
        simpa using this
      · rw [List.length_map, List.length_take]
        exact min_le_left _ _
      · refine List.Pairwise.map _ ?_
          (List.Pairwise.sublist (List.take_sublist _ _) (pairwise_sortDesc _ _))
        intro a b hab
        exact hab
      · intro m hm
        obtain ⟨m₀, hm₀, rfl⟩ := List.mem_map.mp hm
        have hm₀' : m₀ ∈ sortDesc (·.date)
            (db.meetings.filter fun m =>
              m.project_id == some pid && decide (cutoff < m.date)) :=
          (List.take_sublist _ _).subset hm₀
        have hcond := (List.mem_filter.mp ((mem_sortDesc _ _ _).mp hm₀')).2
        rw [Bool.and_eq_true] at hcond
        simpa using hcond.2
      · intro hnil
        rw [hnil]
        rfl
      · intro hnil
        rw [hnil]
        rfl
      · intro hai
        rw [hai]
        rfl

def projW : DashProjectRow := ⟨"p1", "Goodwill", "active", "c1", 100, 20, "ON_TRACK"⟩

def dashDBW : DBState := ⟨[], [projW], [], [], [], [], 0⟩

def viewW : DashboardView := ⟨projW, [], [], [], execSummaryFallback projW []⟩

theorem c9_witness :
    (handleProjectDashboard dashDBW "p1" (.error ()) 0 = .notFound ↔
      ∀ p ∈ dashDBW.dash_projects, p.id ≠ "p1") ∧
    viewW.insights = [] ∧ viewW.recentMeetings = [] ∧
    viewW.executiveSummary = execSummaryFallback viewW.project viewW.insights := by
  have h := c9_dashboard dashDBW "p1" (.error ()) 0
  have h2 := h.2 viewW rfl
  exact ⟨h.1, h2.2.2.2.2.2.2.1 rfl, h2.2.2.2.2.2.2.2.1 rfl, h2.2.2.2.2.2.2.2.2 rfl⟩

/-! ### Re-sync (C2) helpers -/

theorem upsertMeeting_replace {rows : List MeetingRow} {row₁ row₂ : MeetingRow}
    (hfresh : ∀ r ∈ rows, r.id ≠ row₂.id) (hid : row₁.id = row₂.id) :
    upsertMeeting (rows ++ [row₁]) row₂ = rows ++ [row₂] := by
  unfold upsertMeeting
  rw [if_pos]
  · rw [List.map_append]
    congr 1
    · have hmap : List.map (fun r => if (r.id == row₂.id) = true then row₂ else r) rows =
          List.map id rows := by
        apply List.map_congr_left
        intro r hr
        rw [if_neg (by simpa using hfresh r hr)]
        rfl
      rw [hmap, List.map_id]
    · simp [hid]
  · rw [List.any_eq_true]
    exact ⟨row₁, List.mem_append_right _ (List.mem_singleton.mpr rfl), by simp [hid]⟩

theorem filter_id_fresh_append {rows : List MeetingRow} {row : MeetingRow} {key : String}
    (hfresh : ∀ r ∈ rows, r.id ≠ key) (hrow : row.id = key) :
    (rows ++ [row]).filter (fun r => r.id == key) = [row] := by
  rw [List.filter_append]
  have h₁ : rows.filter (fun r => r.id == key) = [] := by
    rw [List.filter_eq_nil_iff]
    intro r hr
    simpa using hfresh r hr
  rw [h₁]
  simp [hrow]

/-- C2: running the pipeline twice on the same transcript leaves exactly
one `meetings` row for its id — the second run's derived row, replacing
the first (`INSERT OR REPLACE` keyed by transcript id) — while
`project_insights` is append-only: each run appends its rows after the
existing ones and never updates or deletes them. -/
theorem c2_idempotent_upsert_append_only (o : Oracle) (t : Transcript) (e₁ e₂ : TEnv)
    (st : DBState)
    (h₁m : e₁.meetingInsertThrows = false) (h₁l : e₁.insightInsertThrowsAt = none)
    (h₁r : e₁.r2PutThrows = false)
    (h₂m : e₂.meetingInsertThrows = false) (h₂l : e₂.insightInsertThrowsAt = none)
    (h₂r : e₂.r2PutThrows = false)
    (hfresh : ∀ r ∈ st.meetings, r.id ≠ t.id) :
    ((runPipeline o t e₂ (runPipeline o t e₁ st).1).1.meetings.filter
        (fun r => r.id == t.id)).length = 1 ∧
    (∃ c, (runPipeline o t e₂ (runPipeline o t e₁ st).1).1.meetings.filter
        (fun r => r.id == t.id) =
      [mkMeetingRow t e₂.insight (associateTranscriptWithProject st.projects t.title) c]) ∧
    (∃ rows₁, (runPipeline o t e₁ st).1.project_insights =
      st.project_insights ++ rows₁) ∧
    (∃ rows₂, (runPipeline o t e₂ (runPipeline o t e₁ st).1).1.project_insights =
      (runPipeline o t e₁ st).1.project_insights ++ rows₂) := by
  have hnofail₁ : (match associateTranscriptWithProject st.projects t.title with
      | some _ => loopFails e₁.insightInsertThrowsAt e₁.insight.insights.length
      | none => false) = false := by
    cases associateTranscriptWithProject st.projects t.title <;> simp [loopFails, h₁l]
  have hproj₁ : (runPipeline o t e₁ st).1.projects = st.projects :=
    (runPipeline_state o t e₁ st).1
  have hnofail₂ : (match associateTranscriptWithProject
        (runPipeline o t e₁ st).1.projects t.title with
      | some _ => loopFails e₂.insightInsertThrowsAt e₂.insight.insights.length
      | none => false) = false := by
    cases associateTranscriptWithProject (runPipeline o t e₁ st).1.projects t.title <;>
      simp [loopFails, h₂l]
  obtain ⟨⟨c₁, hm₁⟩, _⟩ := runPipeline_success_effects o t e₁ st h₁m hnofail₁ h₁r
  obtain ⟨⟨c₂, hm₂⟩, _⟩ :=
    runPipeline_success_effects o t e₂ (runPipeline o t e₁ st).1 h₂m hnofail₂ h₂r
  have hup₁ : (runPipeline o t e₁ st).1.meetings =
      st.meetings ++ [mkMeetingRow t e₁.insight
        (associateTranscriptWithProject st.projects t.title) c₁] := by
    rw [hm₁]
    exact upsertMeeting_fresh (by intro r hr; rw [mkMeetingRow_id]; exact hfresh r hr)
  have hfilter : (runPipeline o t e₂ (runPipeline o t e₁ st).1).1.meetings.filter
      (fun r => r.id == t.id) =
      [mkMeetingRow t e₂.insight (associateTranscriptWithProject st.projects t.title) c₂] := by
    rw [hm₂, hproj₁, hup₁]
    rw [upsertMeeting_replace
      (by intro r hr; rw [mkMeetingRow_id]; exact hfresh r hr)
      (by rw [mkMeetingRow_id, mkMeetingRow_id])]
    exact filter_id_fresh_append hfresh (mkMeetingRow_id t _ _ _)
  refine ⟨by rw [hfilter]; rfl, ⟨c₂, hfilter⟩, ?_, ?_⟩
  · exact (runPipeline_state o t e₁ st).2.2.2.2
  · exact (runPipeline_state o t e₂ (runPipeline o t e₁ st).1).2.2.2.2

def projG : Project := ⟨"p1", "Goodwill", none, 3⟩

def stW : DBState := ⟨[projG], [], [], [], [], [], 0⟩

def subW : SubInsight := ⟨"risk", "r1", "d1", true, 1⟩

def tW : Transcript := ⟨"t1", "Goodwill Weekly Sync", 100, 300, [⟨"Ann"⟩], [⟨"hello", "Ann", 0⟩]⟩

def envW : TEnv :=
  ⟨⟨"sum", "project", ["a"], ["d"], [⟨"r", "high"⟩], [subW], false⟩, false, none, false⟩

def envW2 : TEnv := ⟨⟨"sum2", "review", [], [], [], [subW], true⟩, false, none, false⟩

theorem c2_witness :
    ((runPipeline sampleOracle tW envW2 (runPipeline sampleOracle tW envW stW).1).1.meetings.filter
        (fun r => r.id == tW.id)).length = 1 ∧
    (∃ c, (runPipeline sampleOracle tW envW2 (runPipeline sampleOracle tW envW stW).1).1.meetings.filter
        (fun r => r.id == tW.id) =
      [mkMeetingRow tW envW2.insight (associateTranscriptWithProject stW.projects tW.title) c]) ∧
    (∃ rows₁, (runPipeline sampleOracle tW envW stW).1.project_insights =
      stW.project_insights ++ rows₁) ∧
    (∃ rows₂, (runPipeline sampleOracle tW envW2 (runPipeline sampleOracle tW envW stW).1).1.project_insights =
      (runPipeline sampleOracle tW envW stW).1.project_insights ++ rows₂) :=
  c2_idempotent_upsert_append_only sampleOracle tW envW envW2 stW rfl rfl rfl rfl rfl rfl
    (by intro r hr; exact absurd hr (List.not_mem_nil r))

/-- C1: within one sync batch the per-transcript pipelines are isolated:
the settled outcome list has one entry per fetched transcript, each entry
determined by that transcript's own data and failures alone; every
transcript whose own pipeline succeeds is recorded (derived meeting row
present) and published (rendered document present at its key) no matter
which sibling pipelines threw; and the endpoint's returned count is
exactly the number of pipelines that completed successfully. -/
theorem c1_batch_isolation (o : Oracle) (st : DBState) (batch : List (Transcript × TEnv))
    (hnd : (batch.map fun te => te.1.id).Nodup) :
    (runBatch o batch st).2 = (batch.map fun te => pipelineOutcome st.projects te.1 te.2) ∧
    (runBatch o batch st).2.length = batch.length ∧
    (handleEnhancedMeetingSync o (.ok (some batch)) st).1.body =
      .success ((batch.map fun te => pipelineOutcome st.projects te.1 te.2).countP exceptOk)
        ("Successfully synced " ++
          natDecimal ((batch.map fun te => pipelineOutcome st.projects te.1 te.2).countP exceptOk) ++
          " meetings with business intelligence") (batch.length * 2) ∧
    (∀ t e, (t, e) ∈ batch → pipelineOutcome st.projects t e = .ok t.id →
      (∃ c, mkMeetingRow t e.insight (associateTranscriptWithProject st.projects t.title) c ∈
          (runBatch o batch st).1.meetings) ∧
      (∃ g, ("meetings/meeting-" ++ t.id ++ ".md",
          createEnhancedMarkdown t e.insight (associateTranscriptWithProject st.projects t.title)
            o.localeDate g) ∈ (runBatch o batch st).1.blobs)) := by
  have hout := runBatch_outcomes o batch st
  refine ⟨hout, by rw [hout]; simp, ?_, runBatch_success_effects o batch st hnd⟩
  unfold handleEnhancedMeetingSync
  dsimp only
  rw [hout]

def tA : Transcript := ⟨"tA", "Standup", 1, 60, [], []⟩

def envA : TEnv := ⟨⟨"sA", "standup", [], [], [], [], false⟩, true, none, false⟩

theorem c1_witness :
    (runBatch sampleOracle [(tA, envA), (tW, envW)] stW).2 =
      ([(tA, envA), (tW, envW)].map fun te => pipelineOutcome stW.projects te.1 te.2) ∧
    (runBatch sampleOracle [(tA, envA), (tW, envW)] stW).2 = [.error (), .ok "t1"] ∧
    (∃ c, mkMeetingRow tW envW.insight (associateTranscriptWithProject stW.projects tW.title) c ∈
        (runBatch sampleOracle [(tA, envA), (tW, envW)] stW).1.meetings) ∧
    (∃ g, ("meetings/meeting-" ++ tW.id ++ ".md",
        createEnhancedMarkdown tW envW.insight
          (associateTranscriptWithProject stW.projects tW.title)
          sampleOracle.localeDate g) ∈
        (runBatch sampleOracle [(tA, envA), (tW, envW)] stW).1.blobs) := by
  have h := c1_batch_isolation sampleOracle stW [(tA, envA), (tW, envW)] (by decide)
  have heffects := h.2.2.2 tW envW (by decide) rfl
  exact ⟨h.1, h.1.trans rfl, heffects.1, heffects.2⟩

/-- C8 (amended): `project_insights` rows are inserted only when project
association returned a project (no association — no rows), and the
generated ids `insight_<transcript id>_<Date.now()>` of all rows inserted
during one sync batch are pairwise distinct *provided* the `Date.now()`
readings taken during the batch are pairwise distinct (an injective
clock); with repeated readings — same millisecond — ids can collide, see
the counterexample. -/
theorem c8_insight_ids (o : Oracle) (st : DBState) (batch : List (Transcript × TEnv))
    (hinj : Function.Injective o.time) :
    (∀ t e st', associateTranscriptWithProject st'.projects t.title = none →
      (runPipeline o t e st').1.project_insights = st'.project_insights) ∧
    (∃ new, (runBatch o batch st).1.project_insights = st.project_insights ++ new ∧
      (new.map (·.id)).Nodup) := by
  refine ⟨fun t e st' h => runPipeline_assoc_none o t e st' h, ?_⟩
  obtain ⟨new, hins, htag⟩ := runBatch_tagged o batch st
  exact ⟨new, hins, rowsTagged_nodup hinj htag⟩

def envTwo : TEnv :=
  ⟨⟨"sum", "project", [], [], [], [subW, ⟨"opportunity", "o1", "d2", false, 1⟩], false⟩,
    false, none, false⟩

/-- C8 counterexample: with a clock whose consecutive `Date.now()`
readings coincide (same millisecond), two insights extracted from the same
meeting receive the identical generated id `insight_t1_5` — the id is not
distinct from every other inserted insight id, contrary to the claim. -/
theorem c8_counterexample :
    ((runBatch constOracle [(tW, envTwo)] stW).1.project_insights.map (·.id)) =
      ["insight_t1_5", "insight_t1_5"] ∧
    ¬ ((runBatch constOracle [(tW, envTwo)] stW).1.project_insights.map (·.id)).Nodup := by
  exact ⟨by decide, by decide⟩

theorem c8_witness :
    (∀ t e st', associateTranscriptWithProject st'.projects t.title = none →
      (runPipeline sampleOracle t e st').1.project_insights = st'.project_insights) ∧
    (∃ new, (runBatch sampleOracle [(tW, envTwo)] stW).1.project_insights =
        stW.project_insights ++ new ∧
      (new.map (·.id)).Nodup) :=
  c8_insight_ids sampleOracle stW [(tW, envTwo)] Function.injective_id

theorem c4_witness :
    (∃ s, createEnhancedMarkdown sampleT sampleInsight (some "p1") (fun _ => "1/1/2025")
          "2025-01-01T00:00:00.000Z" = s ++ "2025-01-01T00:00:00.000Z" ++ mdTail ∧
        createEnhancedMarkdown sampleT sampleInsight (some "p1") (fun _ => "1/1/2025")
          "2025-01-01T00:00:00.000Z" = s ++ "2025-01-01T00:00:00.000Z" ++ mdTail) ∧
    createEnhancedMarkdown sampleT sampleInsight (some "p1") (fun _ => "1/1/2025")
        "2025-01-01T00:00:00.000Z" =
      createEnhancedMarkdown sampleT sampleInsight (some "p1") (fun _ => "1/1/2025")
        "2025-01-01T00:00:00.000Z" :=
  ⟨(c4_amended sampleT sampleInsight (some "p1") (fun _ => "1/1/2025")
      "2025-01-01T00:00:00.000Z" "2025-01-01T00:00:00.000Z").1,
   (c4_amended sampleT sampleInsight (some "p1") (fun _ => "1/1/2025")
      "2025-01-01T00:00:00.000Z" "2025-01-01T00:00:00.000Z").2 rfl⟩

end AiAgentApp
